import Mathlib

/-!
Verification of the network driver communication module (minix/net/lwip/ndev.c).

The module is embedded shallowly: each C function becomes a Lean definition on
an explicit state.  Machine integers are modelled as `Nat` with explicit
`% 2^32` where the C code uses `uint32_t` arithmetic (the queue sequence
counters); the driver queues carry their pending request descriptors as a list
whose length plays the role of the C `nq_count` field (which the C code keeps
in sync with the SIMPLEQ by construction).  Calls out of the module (ethif
callbacks, log lines, messages to drivers) are modelled as a list of emitted
`Output` events; calls whose success depends on the environment (grant
allocation, `ethif_add`, `ethif_enable`) take their result as an oracle
argument.
-/

set_option linter.unusedVariables false

namespace NDCC

/-! Constants from minix/net/lwip/ndev.c (lines 70-75). -/

def LABEL_MAX : Nat := 16

def NDEV_SENDQ : Nat := 2

def NDEV_RECVQ : Nat := 2

def NREQ_SPARES : Nat := 8

/-- Modelled from the spec: `NR_NDEV` lives in the missing header ndev.h; the
spec (section 8) fixes `NR_NDEV = 8` for its scenarios. -/
def NR_NDEV : Nat := 8

/-- Modelled from the spec: `NDEV_IOV_MAX` lives in the missing header ndev.h;
the spec (section 8) fixes `IOV_MAX = 4`. -/
def NDEV_IOV_MAX : Nat := 4

/-- Modelled from the spec: the size of the hardware-address buffer
(`__arraycount(hwaddr.nhwa_addr)` in ndev.c line 548, struct in the missing
header); the spec's S1 scenario uses a six-byte ethernet address. -/
def NDEV_HWADDR_MAX : Nat := 6

/-- Modulus of the C `uint32_t` arithmetic used for queue sequence numbers. -/
def U32 : Nat := 2 ^ 32

/-- Request types that can sit in a driver queue: NDEV_CONF, NDEV_SEND,
NDEV_RECV.  Init requests are never queued (ndev.c line 349: the init request
reuses the current send-queue head as its id without an acquire). -/
inductive ReqType where
  | conf
  | send
  | recv
deriving DecidableEq, Inhabited

/-- A request descriptor (struct ndev_req, ndev.c lines 79-83).  `seq` is the
sequence id the request was sent with (implicit in the C code: the id is
`nq_head + position`); `grants` is the list of valid grants stored in
`nreq_grant` before the `GRANT_INVALID` end marker. -/
structure NdevReq where
  ty : ReqType
  seq : Nat
  grants : List Nat
deriving DecidableEq, Inhabited

/-- A driver queue (struct ndev_queue, ndev.c lines 87-92).  `head` is the
uint32 `nq_head`, `max` the uint8 `nq_max`; `reqs` is the SIMPLEQ of pending
requests, whose length is the C `nq_count`. -/
structure NdevQueue where
  head : Nat
  max : Nat
  reqs : List NdevReq
deriving DecidableEq, Inhabited

/-- The C `nq_count` field. -/
def NdevQueue.count (q : NdevQueue) : Nat := q.reqs.length

/-- ndev_queue_init (ndev.c lines 181-194): bump the head, clear count and
max. -/
def ndev_queue_init (q : NdevQueue) : NdevQueue :=
  { head := (q.head + 1) % U32, max := 0, reqs := [] }

/-- ndev_queue_advance (ndev.c lines 200-232): free the head request, revoking
its grants, returning a spare when the request was a send-queue request beyond
the guaranteed minimum, and bump `nq_head`.  Returns the new queue, the new
spare count and the revoked grants.  The empty case is unreachable in the C
code (SIMPLEQ_FIRST of an empty queue). -/
def ndev_queue_advance (q : NdevQueue) (spares : Nat) : NdevQueue × Nat × List Nat :=
  match q.reqs with
  | [] => (q, spares, [])
  | nreq :: rest =>
    let spares' :=
      if nreq.ty ≠ ReqType.recv ∧ NDEV_SENDQ < q.count then spares + 1 else spares
    ({ head := (q.head + 1) % U32, max := q.max, reqs := rest }, spares', nreq.grants)

/-- The `while (nq->nq_count > 0) ndev_queue_advance(nq);` loop of
ndev_queue_reset, with the count as fuel. -/
def ndev_queue_reset_go : Nat → NdevQueue → Nat → NdevQueue × Nat × List Nat
  | 0, q, spares => (q, spares, [])
  | n + 1, q, spares =>
    let a := ndev_queue_advance q spares
    let r := ndev_queue_reset_go n a.1 a.2.1
    (r.1, r.2.1, a.2.2 ++ r.2.2)

/-- ndev_queue_reset (ndev.c lines 238-249): drain the queue, then clear
`nq_max`. -/
def ndev_queue_reset (q : NdevQueue) (spares : Nat) : NdevQueue × Nat × List Nat :=
  let r := ndev_queue_reset_go q.count q spares
  ({ r.1 with max := 0 }, r.2.1, r.2.2)

/-- ndev_queue_get (ndev.c lines 260-285): admission control plus sequence-id
assignment.  Returns the id `nq_head + nq_count` (uint32) for the new request,
or `none` when the request is denied.  No state is mutated. -/
def ndev_queue_get (q : NdevQueue) (spares : Nat) (ty : ReqType) : Option Nat :=
  if q.count = q.max then none
  else if ty ≠ ReqType.recv ∧ NDEV_SENDQ ≤ q.count ∧ spares = 0 then none
  else some ((q.head + q.count) % U32)

/-- ndev_queue_add (ndev.c lines 292-307): append the request, consuming a
spare when it is a send-queue request beyond the guaranteed minimum. -/
def ndev_queue_add (q : NdevQueue) (nreq : NdevReq) (spares : Nat) : NdevQueue × Nat :=
  let spares' :=
    if nreq.ty ≠ ReqType.recv ∧ NDEV_SENDQ ≤ q.count then spares - 1 else spares
  ({ q with reqs := q.reqs ++ [nreq] }, spares')

/-- ndev_queue_remove (ndev.c lines 315-332): remove the head of the queue iff
the queue is non-empty, its head sequence matches and the head descriptor's
type matches.  Returns (removed?, queue, spares, revoked grants). -/
def ndev_queue_remove (q : NdevQueue) (ty : ReqType) (seq : Nat) (spares : Nat) :
    Bool × NdevQueue × Nat × List Nat :=
  if q.count < 1 ∨ q.head ≠ seq then (false, q, spares, [])
  else
    match q.reqs with
    | [] => (false, q, spares, [])
    | nreq :: _ =>
      if nreq.ty ≠ ty then (false, q, spares, [])
      else
        let a := ndev_queue_advance q spares
        (true, a.1, a.2.1, a.2.2)

/-- The grant-allocation loop of ndev_transfer (ndev.c lines 757-779): one
grant per pbuf segment; on an allocation failure revoke the grants allocated
so far (`while (i-- > 0) cpf_revoke(nreq->nreq_grant[i]);`) and fail.  `acc`
holds the grants allocated so far, most recent first, which is exactly the
revocation order.  An exhausted oracle counts as an allocation failure. -/
def ndev_transfer_go : List Nat → List (Option Nat) → List Nat →
    Except (List Nat) (List Nat)
  | [], _, acc => Except.ok acc.reverse
  | _ :: segs, some g :: oracle, acc => ndev_transfer_go segs oracle (g :: acc)
  | _ :: _, none :: _, acc => Except.error acc
  | _ :: _, [], acc => Except.error acc

/-- ndev_transfer (ndev.c lines 741-794) restricted to its grant bookkeeping:
returns the grants stored into the descriptor on success, or the revoked
grants (in revocation order) on ENOMEM. -/
def ndev_transfer (segs : List Nat) (oracle : List (Option Nat)) :
    Except (List Nat) (List Nat) :=
  ndev_transfer_go segs oracle []

/-- The grants a run of ndev_transfer allocates before its first allocation
failure (specification-side recomputation, used to state claim C9). -/
def grantsAllocated : List Nat → List (Option Nat) → List Nat
  | [], _ => []
  | _ :: segs, some g :: oracle => g :: grantsAllocated segs oracle
  | _ :: _, none :: _ => []
  | _ :: _, [] => []

/-- Result codes of the request-submission entry points: OK, EBUSY, ENOMEM. -/
inductive NdevRes where
  | ok
  | busy
  | nomem
deriving DecidableEq, Inhabited

/-- Result of a request submission on a single queue: the result code, the
updated queue and spare counter, and the grants revoked by a failure
rollback. -/
structure OpResult where
  res : NdevRes
  q : NdevQueue
  spares : Nat
  revoked : List Nat
deriving DecidableEq, Inhabited

/-- ndev_conf (ndev.c lines 640-712) on the slot's send queue.  `mcast` is
whether the request carries a multicast-list grant (NDEV_SET_MODE with
NDEV_MODE_MCAST_LIST); `oracle` is the result of that single
cpf_grant_direct.  Without a multicast list no grant is allocated and the
descriptor's grant array starts with GRANT_INVALID. -/
def ndev_conf (q : NdevQueue) (spares : Nat) (mcast : Bool) (oracle : Option Nat) :
    OpResult :=
  match ndev_queue_get q spares ReqType.conf with
  | none => ⟨NdevRes.busy, q, spares, []⟩
  | some seq =>
    if mcast then
      match oracle with
      | none => ⟨NdevRes.nomem, q, spares, []⟩
      | some g =>
        let a := ndev_queue_add q ⟨ReqType.conf, seq, [g]⟩ spares
        ⟨NdevRes.ok, a.1, a.2, []⟩
    else
      let a := ndev_queue_add q ⟨ReqType.conf, seq, []⟩ spares
      ⟨NdevRes.ok, a.1, a.2, []⟩

/-- ndev_send (ndev.c lines 805-829) on the slot's send queue. -/
def ndev_send (q : NdevQueue) (spares : Nat) (segs : List Nat)
    (oracle : List (Option Nat)) : OpResult :=
  match ndev_queue_get q spares ReqType.send with
  | none => ⟨NdevRes.busy, q, spares, []⟩
  | some seq =>
    match ndev_transfer segs oracle with
    | Except.error revoked => ⟨NdevRes.nomem, q, spares, revoked⟩
    | Except.ok grants =>
      let a := ndev_queue_add q ⟨ReqType.send, seq, grants⟩ spares
      ⟨NdevRes.ok, a.1, a.2, []⟩

/-- ndev_recv (ndev.c lines 880-905) on the slot's receive queue. -/
def ndev_recv (q : NdevQueue) (spares : Nat) (segs : List Nat)
    (oracle : List (Option Nat)) : OpResult :=
  match ndev_queue_get q spares ReqType.recv with
  | none => ⟨NdevRes.busy, q, spares, []⟩
  | some seq =>
    match ndev_transfer segs oracle with
    | Except.error revoked => ⟨NdevRes.nomem, q, spares, revoked⟩
    | Except.ok grants =>
      let a := ndev_queue_add q ⟨ReqType.recv, seq, grants⟩ spares
      ⟨NdevRes.ok, a.1, a.2, []⟩

/-- A driver slot (struct ndev, ndev.c lines 94-100).  `endpt = none` models
`ndev_endpt == NONE`; `ethif` models whether `ndev_ethif` is non-NULL. -/
structure Ndev where
  endpt : Option Nat
  label : String
  ethif : Bool
  sendq : NdevQueue
  recvq : NdevQueue
deriving DecidableEq, Inhabited

/-- Calls the module makes into its environment, in program order. -/
inductive Output where
  | ethifAdd
  | ethifEnable
  | ethifDisable
  | ethifRemove
  | ethifConfigured (result : Int)
  | ethifSent (result : Int)
  | ethifReceived (result : Int)
  | logLine
  | sendInit (id : Nat)
deriving DecidableEq, Inhabited

/-- The module state: the driver table `ndev_array`, the high-water mark
`ndev_max`, the spare counter `nreq_spares`, and the `ndev_pending` counter
(a C int, kept as `Int`). -/
structure NdccState where
  ndevs : List Ndev
  ndevMax : Nat
  spares : Nat
  pending : Int
deriving DecidableEq, Inhabited

/-- ndev_init (ndev.c lines 125-176): all slots vacant, spread-out initial
sequence numbers (lines 158-161), all spares free, no pending driver. -/
def ndev_init_state : NdccState :=
  { ndevs := (List.range NR_NDEV).map (fun slot =>
      { endpt := none, label := "", ethif := false,
        sendq := { head := (slot <<< 21) % U32, max := 0, reqs := [] },
        recvq := { head := ((slot * 2 + 1) <<< 20) % U32, max := 0, reqs := [] } }),
    ndevMax := 0, spares := NREQ_SPARES, pending := 0 }

/-- First index among the first `m` slots satisfying `p` (the scan order of
the `for (slot = 0; slot < ndev_max; slot++)` loops in ndev.c). -/
def findSlot (p : Ndev → Bool) : List Ndev → Nat → Option Nat
  | [], _ => none
  | _ :: _, 0 => none
  | nd :: rest, m + 1 => if p nd then some 0 else (findSlot p rest m).map (· + 1)

/-- ndev_up (ndev.c lines 358-427).  A driver has been (re)started.  If a
non-vacant slot carries the same label, it is a restart: reset both queues,
disable the interface and count the slot pending if it has an ethif object,
store the new endpoint and resend the init request.  Otherwise take the first
vacant slot below the high-water mark, or grow the table, or - when the table
is full - ignore the driver (the C code also prints a one-time log line we do
not model).  A fresh slot gets both queues initialized and counts pending. -/
def ndev_up (s : NdccState) (label : String) (endpt : Nat) : NdccState × List Output :=
  match findSlot (fun nd => nd.endpt.isSome && nd.label == label) s.ndevs s.ndevMax with
  | some i =>
    let nd := s.ndevs.getD i default
    let rs := ndev_queue_reset nd.sendq s.spares
    let rr := ndev_queue_reset nd.recvq rs.2.1
    let nd' := { nd with endpt := some endpt, sendq := rs.1, recvq := rr.1 }
    ({ s with
        ndevs := s.ndevs.set i nd',
        spares := rr.2.1,
        pending := if nd.ethif then s.pending + 1 else s.pending },
     (if nd.ethif then [Output.ethifDisable] else []) ++ [Output.sendInit rs.1.head])
  | none =>
    match findSlot (fun nd => nd.endpt.isNone) s.ndevs s.ndevMax with
    | some i =>
      let nd := s.ndevs.getD i default
      let nd' : Ndev :=
        { endpt := some endpt, label := label, ethif := false,
          sendq := ndev_queue_init nd.sendq, recvq := ndev_queue_init nd.recvq }
      ({ s with ndevs := s.ndevs.set i nd', pending := s.pending + 1 },
       [Output.sendInit nd'.sendq.head])
    | none =>
      if s.ndevMax = NR_NDEV then (s, [])
      else
        let nd := s.ndevs.getD s.ndevMax default
        let nd' : Ndev :=
          { endpt := some endpt, label := label, ethif := false,
            sendq := ndev_queue_init nd.sendq, recvq := ndev_queue_init nd.recvq }
        ({ s with
            ndevs := s.ndevs.set s.ndevMax nd',
            ndevMax := s.ndevMax + 1,
            pending := s.pending + 1 },
         [Output.sendInit nd'.sendq.head])

/-- The `while (ndev_max > 0 && ndev_array[ndev_max - 1].ndev_endpt == NONE)
ndev_max--;` loop of ndev_down (ndev.c lines 452-453). -/
def shrinkMax (nds : List Ndev) : Nat → Nat
  | 0 => 0
  | m + 1 => if (nds.getD m default).endpt = none then shrinkMax nds m else m + 1

/-- ndev_down (ndev.c lines 432-454).  Reset both queues; tell ethif the
device is gone if there is an ethif object, otherwise decrement the pending
counter; vacate the slot and shrink the high-water mark. -/
def ndev_down (s : NdccState) (i : Nat) : NdccState × List Output :=
  let nd := s.ndevs.getD i default
  let rs := ndev_queue_reset nd.sendq s.spares
  let rr := ndev_queue_reset nd.recvq rs.2.1
  let nd' := { nd with endpt := none, sendq := rs.1, recvq := rr.1 }
  let ndevs' := s.ndevs.set i nd'
  ({ ndevs := ndevs', ndevMax := shrinkMax ndevs' s.ndevMax, spares := rr.2.1,
     pending := if nd.ethif then s.pending else s.pending - 1 },
   if nd.ethif then [Output.ethifRemove] else [])

/-- The m_netdriver_ndev_init_reply message (fields per spec section 6.1; the
message layout header is not part of the sources).  `name` is the byte
contents of the fixed-size name buffer; `id` is uint32; `hwaddrLen`,
`maxSend`, `maxRecv` are uint8 fields. -/
structure InitReplyMsg where
  id : Nat
  name : List Nat
  hwaddrLen : Nat
  maxSend : Nat
  maxRecv : Nat
deriving DecidableEq, Inhabited

/-- The name validation of ndev_init_reply (ndev.c lines 536-538): invalid iff
no NUL byte inside the buffer or an empty name. -/
def name_invalid (name : List Nat) : Bool :=
  !(name.contains 0) || name.headD 1 == 0

/-- ndev_init_reply (ndev.c lines 516-626).  Ignore the reply unless the slot
is initializing and the id matches the current send-queue head.  Reject (log
and ndev_down) on an invalid name, hardware-address length or queue maximum.
Otherwise add an ethif object if the slot has none (`addOk` is the ethif_add
result), set the queue maxima - the receive maximum clamped to NDEV_RECVQ -
bump both heads, and enable the interface (`enableOk` is the ethif_enable
result).  On failure to enable, tear the slot down; on success, the driver is
no longer pending. -/
def ndev_init_reply (s : NdccState) (i : Nat) (m : InitReplyMsg)
    (addOk enableOk : Bool) : NdccState × List Output :=
  let nd := s.ndevs.getD i default
  if 0 < nd.sendq.max ∨ m.id ≠ nd.sendq.head then (s, [])
  else if name_invalid m.name then
    let d := ndev_down s i
    (d.1, Output.logLine :: d.2)
  else if m.hwaddrLen < 1 ∨ NDEV_HWADDR_MAX < m.hwaddrLen then
    let d := ndev_down s i
    (d.1, Output.logLine :: d.2)
  else if m.maxSend < 1 ∨ m.maxRecv < 1 then
    let d := ndev_down s i
    (d.1, Output.logLine :: d.2)
  else
    let addNew := !nd.ethif
    let eth := if addNew then addOk else true
    let addOuts := if addNew then [Output.ethifAdd] else []
    if eth then
      let maxRecv' := if NDEV_RECVQ < m.maxRecv then NDEV_RECVQ else m.maxRecv
      let sq2 : NdevQueue :=
        { head := (nd.sendq.head + 1) % U32, max := m.maxSend, reqs := nd.sendq.reqs }
      let rq2 : NdevQueue :=
        { head := (nd.recvq.head + 1) % U32, max := maxRecv', reqs := nd.recvq.reqs }
      let nd2 : Ndev := { nd with ethif := true, sendq := sq2, recvq := rq2 }
      let s2 := { s with ndevs := s.ndevs.set i nd2 }
      if enableOk then
        ({ s2 with pending := s2.pending - 1 }, addOuts ++ [Output.ethifEnable])
      else
        let d := ndev_down s2 i
        (d.1, (addOuts ++ [Output.ethifEnable]) ++ d.2)
    else
      let d := ndev_down s i
      (d.1, addOuts ++ d.2)

/-- The ethif callback a reply of the given type produces on a match
(ethif_configured / ethif_sent / ethif_received). -/
def callbackOf (ty : ReqType) (result : Int) : Output :=
  match ty with
  | ReqType.conf => Output.ethifConfigured result
  | ReqType.send => Output.ethifSent result
  | ReqType.recv => Output.ethifReceived result

/-- The queue a reply of the given type is matched against: the receive queue
for receive replies, the send queue otherwise. -/
def queueOf (nd : Ndev) : ReqType → NdevQueue
  | ReqType.recv => nd.recvq
  | _ => nd.sendq

/-- ndev_conf_reply / ndev_send_reply / ndev_recv_reply (ndev.c lines 717-734,
834-851, 910-927), which are identical up to the queue, request type and
callback: drop the reply unless the slot is active
(`NDEV_ACTIVE`, ndev.c line 108) and ndev_queue_remove matches it against the
queue head; on a match, forward the result to ethif. -/
def ndev_reply (s : NdccState) (i : Nat) (ty : ReqType) (id : Nat) (result : Int) :
    NdccState × List Output :=
  let nd := s.ndevs.getD i default
  if nd.sendq.max = 0 then (s, [])
  else
    match ty with
    | ReqType.conf =>
      match ndev_queue_remove nd.sendq ReqType.conf id s.spares with
      | (true, q', sp', _) =>
        ({ s with ndevs := s.ndevs.set i { nd with sendq := q' }, spares := sp' },
         [Output.ethifConfigured result])
      | (false, _, _, _) => (s, [])
    | ReqType.send =>
      match ndev_queue_remove nd.sendq ReqType.send id s.spares with
      | (true, q', sp', _) =>
        ({ s with ndevs := s.ndevs.set i { nd with sendq := q' }, spares := sp' },
         [Output.ethifSent result])
      | (false, _, _, _) => (s, [])
    | ReqType.recv =>
      match ndev_queue_remove nd.recvq ReqType.recv id s.spares with
      | (true, q', sp', _) =>
        ({ s with ndevs := s.ndevs.set i { nd with recvq := q' }, spares := sp' },
         [Output.ethifReceived result])
      | (false, _, _, _) => (s, [])

/-- ndev_conf at the driver-table level (entry point `ndev_conf(id, nconf)`). -/
def ndev_conf_op (s : NdccState) (i : Nat) (mcast : Bool) (oracle : Option Nat) :
    NdccState × NdevRes :=
  let nd := s.ndevs.getD i default
  let r := ndev_conf nd.sendq s.spares mcast oracle
  ({ s with ndevs := s.ndevs.set i { nd with sendq := r.q }, spares := r.spares },
   r.res)

/-- ndev_send at the driver-table level (entry point `ndev_send(id, pbuf)`). -/
def ndev_send_op (s : NdccState) (i : Nat) (segs : List Nat)
    (oracle : List (Option Nat)) : NdccState × NdevRes :=
  let nd := s.ndevs.getD i default
  let r := ndev_send nd.sendq s.spares segs oracle
  ({ s with ndevs := s.ndevs.set i { nd with sendq := r.q }, spares := r.spares },
   r.res)

/-- ndev_recv at the driver-table level (entry point `ndev_recv(id, pbuf)`). -/
def ndev_recv_op (s : NdccState) (i : Nat) (segs : List Nat)
    (oracle : List (Option Nat)) : NdccState × NdevRes :=
  let nd := s.ndevs.getD i default
  let r := ndev_recv nd.recvq s.spares segs oracle
  ({ s with ndevs := s.ndevs.set i { nd with recvq := r.q }, spares := r.spares },
   r.res)

/-- ndev_can_recv (ndev.c lines 859-871). -/
def ndev_can_recv (s : NdccState) (i : Nat) : Bool :=
  let nd := s.ndevs.getD i default
  decide (nd.recvq.count < nd.recvq.max)

/-- The set of reachable module states: ndev_init followed by any sequence of
discovery up/down events, driver replies and upper-layer requests.  The side
conditions on the event constructors record how each entry point is reached in
the C program: replies are dispatched only to slots below the high-water mark
holding the sender endpoint (ndev_process, ndev.c lines 969-1019), discovery
down events only fire for non-vacant slots (ndev_check, lines 503-510),
upper-layer requests assert a non-vacant active slot (e.g. lines 816-817), and
the uint8/uint32 message fields are bounded by their C types. -/
inductive Reachable : NdccState → Prop where
  | init : Reachable ndev_init_state
  | up (s : NdccState) (label : String) (endpt : Nat) :
      Reachable s → Reachable (ndev_up s label endpt).1
  | down (s : NdccState) (i : Nat) :
      Reachable s → i < s.ndevMax → (s.ndevs.getD i default).endpt ≠ none →
      Reachable (ndev_down s i).1
  | initReply (s : NdccState) (i : Nat) (m : InitReplyMsg) (addOk enableOk : Bool) :
      Reachable s → i < s.ndevMax → (s.ndevs.getD i default).endpt ≠ none →
      m.id < U32 → m.maxSend < 256 → m.maxRecv < 256 →
      Reachable (ndev_init_reply s i m addOk enableOk).1
  | confOp (s : NdccState) (i : Nat) (mcast : Bool) (oracle : Option Nat) :
      Reachable s → i < s.ndevMax → (s.ndevs.getD i default).endpt ≠ none →
      0 < (s.ndevs.getD i default).sendq.max →
      Reachable (ndev_conf_op s i mcast oracle).1
  | sendOp (s : NdccState) (i : Nat) (segs : List Nat) (oracle : List (Option Nat)) :
      Reachable s → i < s.ndevMax → (s.ndevs.getD i default).endpt ≠ none →
      0 < (s.ndevs.getD i default).sendq.max →
      Reachable (ndev_send_op s i segs oracle).1
  | recvOp (s : NdccState) (i : Nat) (segs : List Nat) (oracle : List (Option Nat)) :
      Reachable s → i < s.ndevMax → (s.ndevs.getD i default).endpt ≠ none →
      0 < (s.ndevs.getD i default).sendq.max →
      Reachable (ndev_recv_op s i segs oracle).1
  | reply (s : NdccState) (i : Nat) (ty : ReqType) (id : Nat) (result : Int) :
      Reachable s → i < s.ndevMax → (s.ndevs.getD i default).endpt ≠ none →
      Reachable (ndev_reply s i ty id result).1

/-- The number of slots in the Initializing state: endpoint present, send
queue max still zero (the negation of NDEV_ACTIVE, ndev.c line 108). -/
def countInitializing (s : NdccState) : Nat :=
  (s.ndevs.filter (fun nd => nd.endpt.isSome && nd.sendq.max == 0)).length

/-! List helper lemmas. -/

theorem getD_set_self {α : Type} {l : List α} {i : Nat} (a d : α)
    (h : i < l.length) : (l.set i a).getD i d = a := by
  induction l generalizing i with
  | nil => simp at h
  | cons x xs ih =>
    cases i with
    | zero => rfl
    | succ j => exact ih (by simpa using h)

theorem getD_set_ne {α : Type} {l : List α} {i j : Nat} (a d : α)
    (h : i ≠ j) : (l.set i a).getD j d = l.getD j d := by
  induction l generalizing i j with
  | nil => rfl
  | cons x xs ih =>
    cases i with
    | zero =>
      cases j with
      | zero => exact absurd rfl h
      | succ j' => rfl
    | succ i' =>
      cases j with
      | zero => rfl
      | succ j' => exact ih (fun hh => h (by rw [hh]))

theorem getD_len_le {α : Type} {l : List α} {i : Nat} (d : α)
    (h : l.length ≤ i) : l.getD i d = d := by
  induction l generalizing i with
  | nil => rfl
  | cons x xs ih =>
    cases i with
    | zero => simp at h
    | succ j => exact ih (by simpa using h)

theorem getD_mem {α : Type} {l : List α} {i : Nat} (d : α)
    (h : i < l.length) : l.getD i d ∈ l := by
  induction l generalizing i with
  | nil => simp at h
  | cons x xs ih =>
    cases i with
    | zero => exact List.mem_cons_self x xs
    | succ j => exact List.mem_cons_of_mem x (ih (by simpa using h))

theorem forall_mem_set {α : Type} {p : α → Prop} {l : List α} {i : Nat} {a : α}
    (hl : ∀ x ∈ l, p x) (ha : p a) : ∀ x ∈ l.set i a, p x := by
  induction l generalizing i with
  | nil => simp
  | cons x xs ih =>
    cases i with
    | zero =>
      intro y hy
      rcases List.mem_cons.1 hy with h | h
      · exact h ▸ ha
      · exact hl y (List.mem_cons_of_mem x h)
    | succ j =>
      intro y hy
      rcases List.mem_cons.1 hy with h | h
      · exact h ▸ hl x (List.mem_cons_self x xs)
      · exact ih (fun z hz => hl z (List.mem_cons_of_mem x hz)) y h

theorem set_getD_self {α : Type} {l : List α} {i : Nat} (d : α) :
    l.set i (l.getD i d) = l := by
  induction l generalizing i with
  | nil => rfl
  | cons x xs ih =>
    cases i with
    | zero => rfl
    | succ j => simpa using ih (i := j)

/-! The per-slot contribution to the spare-pool equation. -/

/-- The number of spare request objects a slot's send queue has consumed:
`max(0, count - NDEV_SENDQ)` in Nat arithmetic. -/
def slotSpares (nd : Ndev) : Nat := nd.sendq.reqs.length - NDEV_SENDQ

/-- Total spares consumed over a driver table. -/
def usedOf (nds : List Ndev) : Nat := (nds.map slotSpares).sum

theorem usedOf_set {nds : List Ndev} {i : Nat} (nd' : Ndev)
    (h : i < nds.length) :
    usedOf (nds.set i nd') + slotSpares (nds.getD i default)
      = usedOf nds + slotSpares nd' := by
  induction nds generalizing i with
  | nil => simp at h
  | cons x xs ih =>
    cases i with
    | zero => simp [usedOf]; omega
    | succ j =>
      have := ih (by simpa using h)
      simp only [usedOf, List.set, List.map, List.sum_cons, List.getD_cons_succ] at *
      omega

/-! Sequence-id structure of a queue: the i-th pending request carries id
`head + i` (uint32). -/

def SeqIdsFrom : Nat → List NdevReq → Prop
  | _, [] => True
  | h, r :: rest => r.seq = h % U32 ∧ SeqIdsFrom (h + 1) rest

theorem U32_pos : 0 < U32 := by decide

theorem seqIdsFrom_congr {h h' : Nat} {l : List NdevReq}
    (he : h % U32 = h' % U32) (hl : SeqIdsFrom h l) : SeqIdsFrom h' l := by
  induction l generalizing h h' with
  | nil => trivial
  | cons r rest ih =>
    obtain ⟨h1, h2⟩ := hl
    exact ⟨h1.trans he, ih (by rw [Nat.add_mod, he, ← Nat.add_mod]) h2⟩

theorem seqIdsFrom_append {h : Nat} {l : List NdevReq} {r : NdevReq}
    (hl : SeqIdsFrom h l) (hr : r.seq = (h + l.length) % U32) :
    SeqIdsFrom h (l ++ [r]) := by
  induction l generalizing h with
  | nil => exact ⟨by simpa using hr, trivial⟩
  | cons x xs ih =>
    obtain ⟨h1, h2⟩ := hl
    refine ⟨h1, ih h2 ?_⟩
    rw [hr]
    congr 1
    simp only [List.length_cons]
    omega

theorem seqIdsFrom_get {h : Nat} {l : List NdevReq} (hl : SeqIdsFrom h l) :
    ∀ k, (hk : k < l.length) → (l.get ⟨k, hk⟩).seq = (h + k) % U32 := by
  induction l generalizing h with
  | nil => intro k hk; simp at hk
  | cons x xs ih =>
    intro k hk
    obtain ⟨h1, h2⟩ := hl
    cases k with
    | zero => simpa using h1
    | succ j =>
      have hj : j < xs.length := by simpa using hk
      have hstep := ih h2 j hj
      rw [show ((x :: xs).get ⟨j + 1, hk⟩) = xs.get ⟨j, hj⟩ from rfl, hstep]
      congr 1
      omega

/-! Queue invariant. -/

structure QueueInv (q : NdevQueue) (P : ReqType → Prop) : Prop where
  head_lt : q.head < U32
  count_le : q.count ≤ q.max
  seqs : SeqIdsFrom q.head q.reqs
  tys : ∀ r ∈ q.reqs, P r.ty

theorem qinv_empty {h mx : Nat} {P : ReqType → Prop} (hh : h < U32) :
    QueueInv { head := h, max := mx, reqs := [] } P :=
  ⟨hh, Nat.zero_le mx, trivial, by intro r hr; simp at hr⟩

theorem qinv_queue_init {q : NdevQueue} {P : ReqType → Prop} :
    QueueInv (ndev_queue_init q) P :=
  qinv_empty (Nat.mod_lt _ U32_pos)

/-! Behaviour of the queue primitives. -/

theorem advance_cons {hd mx : Nat} {x : NdevReq} {rest : List NdevReq} {spares : Nat} :
    ndev_queue_advance { head := hd, max := mx, reqs := x :: rest } spares =
      ({ head := (hd + 1) % U32, max := mx, reqs := rest },
       if x.ty ≠ ReqType.recv ∧ NDEV_SENDQ < rest.length + 1 then spares + 1 else spares,
       x.grants) := rfl

theorem qinv_advance {q : NdevQueue} {P : ReqType → Prop} {spares : Nat}
    (h : QueueInv q P) : QueueInv (ndev_queue_advance q spares).1 P := by
  obtain ⟨hlt, hle, hseq, htys⟩ := h
  rcases q with ⟨hd, mx, reqs⟩
  cases reqs with
  | nil => exact ⟨hlt, hle, hseq, htys⟩
  | cons x rest =>
    rw [advance_cons]
    refine ⟨Nat.mod_lt _ U32_pos, ?_, ?_, ?_⟩
    · simp only [NdevQueue.count, List.length_cons] at hle ⊢
      omega
    · exact seqIdsFrom_congr (Nat.mod_mod_of_dvd _ dvd_rfl).symm hseq.2
    · exact fun r hr => htys r (List.mem_cons_of_mem x hr)

theorem reset_go_spec (n : Nat) : ∀ (q : NdevQueue) (spares : Nat),
    q.reqs.length = n → q.head < U32 →
    (ndev_queue_reset_go n q spares).1.reqs = [] ∧
    (ndev_queue_reset_go n q spares).1.head = (q.head + n) % U32 ∧
    (ndev_queue_reset_go n q spares).1.max = q.max ∧
    ((∀ x ∈ q.reqs, x.ty ≠ ReqType.recv) →
      (ndev_queue_reset_go n q spares).2.1 = spares + (n - NDEV_SENDQ)) ∧
    ((∀ x ∈ q.reqs, x.ty = ReqType.recv) →
      (ndev_queue_reset_go n q spares).2.1 = spares) := by
  induction n with
  | zero =>
    intro q spares hlen hlt
    have hnil : q.reqs = [] := List.length_eq_zero.1 hlen
    simp [ndev_queue_reset_go, hnil, Nat.mod_eq_of_lt hlt]
  | succ n ih =>
    intro q spares hlen hlt
    rcases q with ⟨hd, mx, reqs⟩
    cases reqs with
    | nil => simp at hlen
    | cons x rest =>
      have hrest : rest.length = n := by simpa using hlen
      have hgo : ndev_queue_reset_go (n + 1) ⟨hd, mx, x :: rest⟩ spares =
          (let a := ndev_queue_advance ⟨hd, mx, x :: rest⟩ spares
           let r := ndev_queue_reset_go n a.1 a.2.1
           (r.1, r.2.1, a.2.2 ++ r.2.2)) := rfl
      rw [hgo, advance_cons]
      have hih := ih { head := (hd + 1) % U32, max := mx, reqs := rest }
        (if x.ty ≠ ReqType.recv ∧ NDEV_SENDQ < rest.length + 1 then spares + 1 else spares)
        hrest (Nat.mod_lt _ U32_pos)
      obtain ⟨i1, i2, i3, i4, i5⟩ := hih
      refine ⟨i1, ?_, i3, ?_, ?_⟩
      · rw [i2]
        show ((hd + 1) % U32 + n) % U32 = (hd + (n + 1)) % U32
        rw [Nat.mod_add_mod]
        congr 1
        omega
      · intro hall
        have hx : x.ty ≠ ReqType.recv := hall x (List.mem_cons_self x rest)
        have hr := i4 (fun r hr => hall r (List.mem_cons_of_mem x hr))
        rw [hr]
        simp only [hx, ne_eq, not_false_eq_true, true_and, NDEV_SENDQ]
        split_ifs with hcond <;> omega
      · intro hall
        have hx : x.ty = ReqType.recv := hall x (List.mem_cons_self x rest)
        have hr := i5 (fun r hr => hall r (List.mem_cons_of_mem x hr))
        rw [hr]
        simp [hx]

theorem reset_spec (q : NdevQueue) (spares : Nat) (hlt : q.head < U32) :
    (ndev_queue_reset q spares).1.reqs = [] ∧
    (ndev_queue_reset q spares).1.head = (q.head + q.count) % U32 ∧
    (ndev_queue_reset q spares).1.max = 0 ∧
    ((∀ x ∈ q.reqs, x.ty ≠ ReqType.recv) →
      (ndev_queue_reset q spares).2.1 = spares + (q.count - NDEV_SENDQ)) ∧
    ((∀ x ∈ q.reqs, x.ty = ReqType.recv) →
      (ndev_queue_reset q spares).2.1 = spares) := by
  obtain ⟨h1, h2, h3, h4, h5⟩ := reset_go_spec q.count q spares rfl hlt
  exact ⟨h1, h2, rfl, h4, h5⟩

theorem qinv_reset {q : NdevQueue} {spares : Nat} {P : ReqType → Prop}
    (hlt : q.head < U32) : QueueInv (ndev_queue_reset q spares).1 P := by
  obtain ⟨h1, h2, h3, _⟩ := reset_spec q spares hlt
  refine ⟨?_, ?_, ?_, ?_⟩
  · rw [h2]; exact Nat.mod_lt _ U32_pos
  · simp [NdevQueue.count, h1]
  · rw [show SeqIdsFrom (ndev_queue_reset q spares).1.head (ndev_queue_reset q spares).1.reqs
        = SeqIdsFrom (ndev_queue_reset q spares).1.head [] from by rw [h1]]
    trivial
  · intro r hr
    rw [h1] at hr
    simp at hr

theorem get_eq_none_iff (q : NdevQueue) (spares : Nat) (ty : ReqType) :
    ndev_queue_get q spares ty = none ↔
      (q.count = q.max ∨ (ty ≠ ReqType.recv ∧ NDEV_SENDQ ≤ q.count ∧ spares = 0)) := by
  unfold ndev_queue_get
  split_ifs with h1 h2
  · simp [h1]
  · simp [h1, h2]
  · simp [h1, h2]

theorem get_eq_some {q : NdevQueue} {spares : Nat} {ty : ReqType} {seq : Nat}
    (h : ndev_queue_get q spares ty = some seq) :
    q.count ≠ q.max ∧ ¬(ty ≠ ReqType.recv ∧ NDEV_SENDQ ≤ q.count ∧ spares = 0) ∧
      seq = (q.head + q.count) % U32 := by
  unfold ndev_queue_get at h
  split_ifs at h with h1 h2
  · injection h with hh
    exact ⟨h1, h2, hh.symm⟩

theorem add_def (q : NdevQueue) (nreq : NdevReq) (spares : Nat) :
    ndev_queue_add q nreq spares =
      ({ q with reqs := q.reqs ++ [nreq] },
       if nreq.ty ≠ ReqType.recv ∧ NDEV_SENDQ ≤ q.count then spares - 1 else spares) := rfl

theorem qinv_add {q : NdevQueue} {P : ReqType → Prop} (spares : Nat) {nreq : NdevReq}
    (h : QueueInv q P) (hty : P nreq.ty) (hne : q.count ≠ q.max)
    (hseq : nreq.seq = (q.head + q.count) % U32) :
    QueueInv (ndev_queue_add q nreq spares).1 P := by
  obtain ⟨hlt, hle, hseqs, htys⟩ := h
  rw [add_def]
  refine ⟨hlt, ?_, seqIdsFrom_append hseqs hseq, ?_⟩
  · simp only [NdevQueue.count, List.length_append, List.length_cons,
      List.length_nil] at hle hne ⊢
    omega
  · intro r hr
    rcases List.mem_append.1 hr with h | h
    · exact htys r h
    · rw [List.mem_singleton.1 h]
      exact hty

theorem remove_neg (q : NdevQueue) (ty : ReqType) (seq : Nat) (spares : Nat)
    (h : q.reqs = [] ∨ q.head ≠ seq ∨ (q.reqs.headD default).ty ≠ ty) :
    ndev_queue_remove q ty seq spares = (false, q, spares, []) := by
  unfold ndev_queue_remove
  rcases q with ⟨hd, mx, reqs⟩
  cases reqs with
  | nil => simp [NdevQueue.count]
  | cons x rest =>
    simp only [NdevQueue.count, List.length_cons] at h ⊢
    rcases h with h | h | h
    · simp at h
    · simp [h]
    · simp only [List.headD_cons] at h
      simp [NdevQueue.count, h]

theorem remove_pos (q : NdevQueue) (ty : ReqType) (seq : Nat) (spares : Nat)
    (hne : q.reqs ≠ []) (hhd : q.head = seq) (hty : (q.reqs.headD default).ty = ty) :
    ndev_queue_remove q ty seq spares =
      (true, (ndev_queue_advance q spares).1, (ndev_queue_advance q spares).2.1,
       (ndev_queue_advance q spares).2.2) := by
  unfold ndev_queue_remove
  rcases q with ⟨hd, mx, reqs⟩
  cases reqs with
  | nil => exact absurd rfl hne
  | cons x rest =>
    have hty' : x.ty = ty := by simpa using hty
    have hhd' : hd = seq := hhd
    subst hhd'
    simp [NdevQueue.count, hty']

/-! The state invariant: well-formed table, the spare-pool equation, and
per-slot queue structure. -/

structure SlotInv (nd : Ndev) : Prop where
  sq : QueueInv nd.sendq (fun t => t ≠ ReqType.recv)
  rq : QueueInv nd.recvq (fun t => t = ReqType.recv)
  sync : nd.sendq.max = 0 → nd.recvq.max = 0
  empt : nd.endpt = none → nd.sendq.reqs = [] ∧ nd.recvq.reqs = []

structure Inv (s : NdccState) : Prop where
  len : s.ndevs.length = NR_NDEV
  maxle : s.ndevMax ≤ NR_NDEV
  high : ∀ k, s.ndevMax ≤ k → (s.ndevs.getD k default).endpt = none
  spares_eq : s.spares + usedOf s.ndevs = NREQ_SPARES
  slots : ∀ nd ∈ s.ndevs, SlotInv nd

theorem shrinkMax_le (nds : List Ndev) (m : Nat) : shrinkMax nds m ≤ m := by
  induction m with
  | zero => exact Nat.le_refl 0
  | succ m ih =>
    unfold shrinkMax
    split_ifs
    · exact le_trans ih (Nat.le_succ m)
    · exact Nat.le_refl _

theorem shrinkMax_none (nds : List Ndev) (m : Nat) :
    ∀ k, shrinkMax nds m ≤ k → k < m → (nds.getD k default).endpt = none := by
  induction m with
  | zero => intro k h1 h2; omega
  | succ m ih =>
    intro k h1 h2
    unfold shrinkMax at h1
    split_ifs at h1 with hc
    · rcases Nat.lt_succ_iff_lt_or_eq.1 h2 with h | h
      · exact ih k h1 h
      · exact h ▸ hc
    · omega

theorem spares_eq_set {s : NdccState} (h : Inv s) {i : Nat}
    (hi : i < s.ndevs.length) (nd' : Ndev) {spares' : Nat}
    (heq : spares' + slotSpares nd'
      = s.spares + slotSpares (s.ndevs.getD i default)) :
    spares' + usedOf (s.ndevs.set i nd') = NREQ_SPARES := by
  have hu := usedOf_set nd' hi
  have hs := h.spares_eq
  omega

theorem inv_down {s : NdccState} {i : Nat} (h : Inv s) (hi : i < s.ndevs.length) :
    Inv (ndev_down s i).1 := by
  have hslot := h.slots _ (getD_mem (l := s.ndevs) default hi)
  obtain ⟨s1, s2, s3, s4, s5⟩ :=
    reset_spec (s.ndevs.getD i default).sendq s.spares hslot.sq.head_lt
  obtain ⟨r1, r2, r3, r4, r5⟩ :=
    reset_spec (s.ndevs.getD i default).recvq
      (ndev_queue_reset (s.ndevs.getD i default).sendq s.spares).2.1 hslot.rq.head_lt
  refine ⟨?_, ?_, ?_, ?_, ?_⟩
  · show (s.ndevs.set i _).length = NR_NDEV
    rw [List.length_set]
    exact h.len
  · exact le_trans (shrinkMax_le _ _) h.maxle
  · intro k hk
    show ((s.ndevs.set i _).getD k default).endpt = none
    by_cases hkm : k < s.ndevMax
    · exact shrinkMax_none _ _ k hk hkm
    · by_cases hik : i = k
      · subst hik
        rw [getD_set_self _ default (by omega)]
      · rw [getD_set_ne _ default hik]
        exact h.high k (by omega)
  · refine spares_eq_set h hi _ ?_
    have hsq := s4 hslot.sq.tys
    have hrq := r5 hslot.rq.tys
    show (ndev_queue_reset (s.ndevs.getD i default).recvq
        (ndev_queue_reset (s.ndevs.getD i default).sendq s.spares).2.1).2.1
      + slotSpares _ = s.spares + slotSpares _
    simp only [slotSpares, s1, List.length_nil]
    rw [hrq, hsq]
    simp only [NdevQueue.count]
    omega
  · refine forall_mem_set h.slots ?_
    refine ⟨qinv_reset hslot.sq.head_lt, qinv_reset hslot.rq.head_lt,
      fun _ => r3, fun _ => ⟨s1, r1⟩⟩

theorem findSlot_spec {p : Ndev → Bool} : ∀ (l : List Ndev) (m i : Nat),
    findSlot p l m = some i → i < l.length ∧ i < m ∧ p (l.getD i default) = true := by
  intro l
  induction l with
  | nil => intro m i hsome; simp [findSlot] at hsome
  | cons nd rest ih =>
    intro m i hsome
    cases m with
    | zero => simp [findSlot] at hsome
    | succ m =>
      unfold findSlot at hsome
      split_ifs at hsome with hp
      · injection hsome with hh
        subst hh
        exact ⟨by simp, Nat.succ_pos m, hp⟩
      · rcases Option.map_eq_some'.1 hsome with ⟨j, hj, rfl⟩
        obtain ⟨a, b, c⟩ := ih m j hj
        exact ⟨by simpa using a, by omega, by simpa using c⟩

theorem inv_up {s : NdccState} {label : String} {endpt : Nat} (h : Inv s) :
    Inv (ndev_up s label endpt).1 := by
  unfold ndev_up
  cases hf : findSlot (fun nd => nd.endpt.isSome && nd.label == label)
      s.ndevs s.ndevMax with
  | some i =>
    obtain ⟨hil, him, hp⟩ := findSlot_spec _ _ _ hf
    have hslot := h.slots _ (getD_mem (l := s.ndevs) default hil)
    obtain ⟨s1, s2, s3, s4, s5⟩ :=
      reset_spec (s.ndevs.getD i default).sendq s.spares hslot.sq.head_lt
    obtain ⟨r1, r2, r3, r4, r5⟩ :=
      reset_spec (s.ndevs.getD i default).recvq
        (ndev_queue_reset (s.ndevs.getD i default).sendq s.spares).2.1
        hslot.rq.head_lt
    refine ⟨?_, ?_, ?_, ?_, ?_⟩
    · show (s.ndevs.set i _).length = NR_NDEV
      rw [List.length_set]
      exact h.len
    · exact h.maxle
    · intro k hk
      have hk' : s.ndevMax ≤ k := hk
      show ((s.ndevs.set i _).getD k default).endpt = none
      have hik : i ≠ k := by omega
      rw [getD_set_ne _ default hik]
      exact h.high k hk'
    · refine spares_eq_set h hil _ ?_
      have hsq := s4 hslot.sq.tys
      have hrq := r5 hslot.rq.tys
      show (ndev_queue_reset (s.ndevs.getD i default).recvq
          (ndev_queue_reset (s.ndevs.getD i default).sendq s.spares).2.1).2.1
        + slotSpares _ = s.spares + slotSpares _
      simp only [slotSpares, s1, List.length_nil]
      rw [hrq, hsq]
      simp only [NdevQueue.count]
      omega
    · refine forall_mem_set h.slots ?_
      exact ⟨qinv_reset hslot.sq.head_lt, qinv_reset hslot.rq.head_lt,
        fun _ => r3, fun he => Option.noConfusion he⟩
  | none =>
    cases hv : findSlot (fun nd => nd.endpt.isNone) s.ndevs s.ndevMax with
    | some i =>
      obtain ⟨hil, him, hp⟩ := findSlot_spec _ _ _ hv
      have hslot := h.slots _ (getD_mem (l := s.ndevs) default hil)
      have hvac : (s.ndevs.getD i default).endpt = none := by
        simpa [Option.isNone_iff_eq_none] using hp
      obtain ⟨he1, he2⟩ := hslot.empt hvac
      refine ⟨?_, ?_, ?_, ?_, ?_⟩
      · show (s.ndevs.set i _).length = NR_NDEV
        rw [List.length_set]
        exact h.len
      · exact h.maxle
      · intro k hk
        have hk' : s.ndevMax ≤ k := hk
        show ((s.ndevs.set i _).getD k default).endpt = none
        have hik : i ≠ k := by omega
        rw [getD_set_ne _ default hik]
        exact h.high k hk'
      · refine spares_eq_set h hil _ ?_
        simp only [slotSpares, he1]
        rfl
      · refine forall_mem_set h.slots ?_
        exact ⟨qinv_queue_init, qinv_queue_init,
          fun _ => rfl, fun he => Option.noConfusion he⟩
    | none =>
      by_cases hfull : s.ndevMax = NR_NDEV
      · rw [if_pos hfull]
        exact h
      · rw [if_neg hfull]
        have him : s.ndevMax < NR_NDEV := lt_of_le_of_ne h.maxle hfull
        have hil : s.ndevMax < s.ndevs.length := by rw [h.len]; exact him
        have hvac : (s.ndevs.getD s.ndevMax default).endpt = none :=
          h.high _ (Nat.le_refl _)
        have hslot := h.slots _ (getD_mem (l := s.ndevs) default hil)
        obtain ⟨he1, he2⟩ := hslot.empt hvac
        refine ⟨?_, ?_, ?_, ?_, ?_⟩
        · show (s.ndevs.set s.ndevMax _).length = NR_NDEV
          rw [List.length_set]
          exact h.len
        · exact him
        · intro k hk
          have hk' : s.ndevMax + 1 ≤ k := hk
          show ((s.ndevs.set s.ndevMax _).getD k default).endpt = none
          have hik : s.ndevMax ≠ k := by omega
          rw [getD_set_ne _ default hik]
          exact h.high k (by omega)
        · refine spares_eq_set h hil _ ?_
          simp only [slotSpares, he1]
          rfl
        · refine forall_mem_set h.slots ?_
          exact ⟨qinv_queue_init, qinv_queue_init,
            fun _ => rfl, fun he => Option.noConfusion he⟩

theorem inv_activate {s : NdccState} {i : Nat} (msend mrecv : Nat) (h : Inv s)
    (him : i < s.ndevMax) (hmax0 : (s.ndevs.getD i default).sendq.max = 0)
    (hms : 0 < msend) :
    Inv { s with
          ndevs := s.ndevs.set i
            { s.ndevs.getD i default with
                ethif := true,
                sendq := { head := ((s.ndevs.getD i default).sendq.head + 1) % U32,
                           max := msend,
                           reqs := (s.ndevs.getD i default).sendq.reqs },
                recvq := { head := ((s.ndevs.getD i default).recvq.head + 1) % U32,
                           max := mrecv,
                           reqs := (s.ndevs.getD i default).recvq.reqs } } } := by
  have hi : i < s.ndevs.length := by
    rw [h.len]; exact lt_of_lt_of_le him h.maxle
  have hslot := h.slots _ (getD_mem (l := s.ndevs) default hi)
  have hse : (s.ndevs.getD i default).sendq.reqs = [] := by
    have := hslot.sq.count_le
    rw [hmax0] at this
    exact List.length_eq_zero.1 (Nat.le_zero.1 this)
  have hre : (s.ndevs.getD i default).recvq.reqs = [] := by
    have := hslot.rq.count_le
    rw [hslot.sync hmax0] at this
    exact List.length_eq_zero.1 (Nat.le_zero.1 this)
  refine ⟨?_, h.maxle, ?_, ?_, ?_⟩
  · show (s.ndevs.set i _).length = NR_NDEV
    rw [List.length_set]
    exact h.len
  · intro k hk
    have hk' : s.ndevMax ≤ k := hk
    show ((s.ndevs.set i _).getD k default).endpt = none
    have hik : i ≠ k := by omega
    rw [getD_set_ne _ default hik]
    exact h.high k hk'
  · refine spares_eq_set h hi _ ?_
    simp only [slotSpares]
  · refine forall_mem_set h.slots ?_
    refine ⟨⟨Nat.mod_lt _ U32_pos, ?_, ?_, ?_⟩, ⟨Nat.mod_lt _ U32_pos, ?_, ?_, ?_⟩,
      fun hz => absurd (show msend = 0 from hz) (by omega), fun _ => ⟨hse, hre⟩⟩
    · show (s.ndevs.getD i default).sendq.reqs.length ≤ msend
      rw [hse]
      exact Nat.zero_le _
    · show SeqIdsFrom _ (s.ndevs.getD i default).sendq.reqs
      rw [hse]
      trivial
    · intro r hr
      exact hslot.sq.tys r hr
    · show (s.ndevs.getD i default).recvq.reqs.length ≤ mrecv
      rw [hre]
      exact Nat.zero_le _
    · show SeqIdsFrom _ (s.ndevs.getD i default).recvq.reqs
      rw [hre]
      trivial
    · intro r hr
      exact hslot.rq.tys r hr

theorem inv_init_reply {s : NdccState} {i : Nat} {m : InitReplyMsg}
    {addOk enableOk : Bool} (h : Inv s) (him : i < s.ndevMax) :
    Inv (ndev_init_reply s i m addOk enableOk).1 := by
  have hi : i < s.ndevs.length := by
    rw [h.len]; exact lt_of_lt_of_le him h.maxle
  unfold ndev_init_reply
  by_cases h1 : 0 < (s.ndevs.getD i default).sendq.max ∨
      m.id ≠ (s.ndevs.getD i default).sendq.head
  · rw [if_pos h1]
    exact h
  rw [if_neg h1]
  push_neg at h1
  have hmax0 : (s.ndevs.getD i default).sendq.max = 0 := by omega
  by_cases h2 : name_invalid m.name = true
  · rw [if_pos h2]
    exact inv_down h hi
  rw [if_neg h2]
  by_cases h3 : m.hwaddrLen < 1 ∨ NDEV_HWADDR_MAX < m.hwaddrLen
  · rw [if_pos h3]
    exact inv_down h hi
  rw [if_neg h3]
  by_cases h4 : m.maxSend < 1 ∨ m.maxRecv < 1
  · rw [if_pos h4]
    exact inv_down h hi
  rw [if_neg h4]
  push_neg at h4
  have hms : 0 < m.maxSend := h4.1
  have hs2 := inv_activate m.maxSend
    (if NDEV_RECVQ < m.maxRecv then NDEV_RECVQ else m.maxRecv)
    h him hmax0 hms
  by_cases heth : (s.ndevs.getD i default).ethif = true
  · simp only [heth, Bool.not_true, Bool.false_eq_true, if_false, if_true]
    by_cases henable : enableOk = true
    · simp only [henable, if_true]
      exact ⟨hs2.len, hs2.maxle, hs2.high, hs2.spares_eq, hs2.slots⟩
    · simp only [henable, if_false]
      refine inv_down ⟨hs2.len, hs2.maxle, hs2.high, hs2.spares_eq, hs2.slots⟩ ?_
      show i < (s.ndevs.set i _).length
      rw [List.length_set]
      exact hi
  · have heth' : (s.ndevs.getD i default).ethif = false := by
      revert heth
      cases (s.ndevs.getD i default).ethif <;> simp
    simp only [heth', Bool.not_false, if_true]
    by_cases haddOk : addOk = true
    · simp only [haddOk, if_true]
      by_cases henable : enableOk = true
      · simp only [henable, if_true]
        exact ⟨hs2.len, hs2.maxle, hs2.high, hs2.spares_eq, hs2.slots⟩
      · simp only [henable, if_false]
        refine inv_down ⟨hs2.len, hs2.maxle, hs2.high, hs2.spares_eq, hs2.slots⟩ ?_
        show i < (s.ndevs.set i _).length
        rw [List.length_set]
        exact hi
    · have haddOk' : addOk = false := by
        revert haddOk
        cases addOk <;> simp
      simp only [haddOk', Bool.false_eq_true, if_false]
      exact inv_down h hi

theorem advance_spec {q : NdevQueue} (spares : Nat) {x : NdevReq} {rest : List NdevReq}
    (hreqs : q.reqs = x :: rest) :
    (ndev_queue_advance q spares).1
      = { head := (q.head + 1) % U32, max := q.max, reqs := rest } ∧
    (ndev_queue_advance q spares).2.1
      = (if x.ty ≠ ReqType.recv ∧ NDEV_SENDQ < rest.length + 1
         then spares + 1 else spares) := by
  rcases q with ⟨qh, qm, qreqs⟩
  simp only at hreqs
  subst hreqs
  rw [advance_cons]
  exact ⟨rfl, rfl⟩

theorem inv_commit_send {s : NdccState} {i : Nat} (h : Inv s)
    (hi : i < s.ndevs.length) (hne : (s.ndevs.getD i default).endpt ≠ none)
    {ty : ReqType} (hty : ty ≠ ReqType.recv) {gs : List Nat} {seq : Nat}
    (hget : ndev_queue_get (s.ndevs.getD i default).sendq s.spares ty = some seq) :
    Inv { s with
          ndevs := s.ndevs.set i
            { s.ndevs.getD i default with
                sendq := (ndev_queue_add (s.ndevs.getD i default).sendq
                  ⟨ty, seq, gs⟩ s.spares).1 },
          spares := (ndev_queue_add (s.ndevs.getD i default).sendq
            ⟨ty, seq, gs⟩ s.spares).2 } := by
  have hslot := h.slots _ (getD_mem (l := s.ndevs) default hi)
  obtain ⟨hgne, hgsp, hgseq⟩ := get_eq_some hget
  have hsp : ¬(NDEV_SENDQ ≤ (s.ndevs.getD i default).sendq.count ∧ s.spares = 0) :=
    fun hc => hgsp ⟨hty, hc.1, hc.2⟩
  refine ⟨?_, h.maxle, ?_, ?_, ?_⟩
  · show (s.ndevs.set i _).length = NR_NDEV
    rw [List.length_set]
    exact h.len
  · intro k hk
    have hk' : s.ndevMax ≤ k := hk
    show ((s.ndevs.set i _).getD k default).endpt = none
    by_cases hik : i = k
    · subst hik
      exact absurd (h.high i hk') hne
    · rw [getD_set_ne _ default hik]
      exact h.high k hk'
  · refine spares_eq_set h hi _ ?_
    rw [add_def]
    simp only [slotSpares, List.length_append, List.length_cons, List.length_nil,
      NdevQueue.count, NDEV_SENDQ] at hsp ⊢
    split_ifs with hc
    · have h2 := hc.2
      have h3 : s.spares ≠ 0 := fun h0 => hsp ⟨h2, h0⟩
      omega
    · have h2 : ¬ 2 ≤ (s.ndevs.getD i default).sendq.reqs.length :=
        fun hh => hc ⟨hty, hh⟩
      omega
  · refine forall_mem_set h.slots ?_
    refine ⟨qinv_add s.spares hslot.sq hty hgne hgseq, hslot.rq, ?_,
      fun he => absurd he hne⟩
    intro hz
    exact hslot.sync hz

theorem inv_commit_recv {s : NdccState} {i : Nat} (h : Inv s)
    (hi : i < s.ndevs.length) (hne : (s.ndevs.getD i default).endpt ≠ none)
    {gs : List Nat} {seq : Nat}
    (hget : ndev_queue_get (s.ndevs.getD i default).recvq s.spares ReqType.recv
      = some seq) :
    Inv { s with
          ndevs := s.ndevs.set i
            { s.ndevs.getD i default with
                recvq := (ndev_queue_add (s.ndevs.getD i default).recvq
                  ⟨ReqType.recv, seq, gs⟩ s.spares).1 },
          spares := (ndev_queue_add (s.ndevs.getD i default).recvq
            ⟨ReqType.recv, seq, gs⟩ s.spares).2 } := by
  have hslot := h.slots _ (getD_mem (l := s.ndevs) default hi)
  obtain ⟨hgne, hgsp, hgseq⟩ := get_eq_some hget
  refine ⟨?_, h.maxle, ?_, ?_, ?_⟩
  · show (s.ndevs.set i _).length = NR_NDEV
    rw [List.length_set]
    exact h.len
  · intro k hk
    have hk' : s.ndevMax ≤ k := hk
    show ((s.ndevs.set i _).getD k default).endpt = none
    by_cases hik : i = k
    · subst hik
      exact absurd (h.high i hk') hne
    · rw [getD_set_ne _ default hik]
      exact h.high k hk'
  · refine spares_eq_set h hi _ ?_
    rw [add_def]
    simp [slotSpares]
  · refine forall_mem_set h.slots ?_
    refine ⟨hslot.sq, qinv_add s.spares hslot.rq rfl hgne hgseq, ?_,
      fun he => absurd he hne⟩
    intro hz
    exact hslot.sync hz

theorem inv_conf_op {s : NdccState} {i : Nat} {mcast : Bool} {oracle : Option Nat}
    (h : Inv s) (hi : i < s.ndevs.length)
    (hne : (s.ndevs.getD i default).endpt ≠ none) :
    Inv (ndev_conf_op s i mcast oracle).1 := by
  unfold ndev_conf_op ndev_conf
  cases hget : ndev_queue_get (s.ndevs.getD i default).sendq s.spares ReqType.conf with
  | none =>
    simp only [hget]
    show Inv { s with
               ndevs := s.ndevs.set i (s.ndevs.getD i default),
               spares := s.spares }
    rw [set_getD_self]
    exact h
  | some seq =>
    simp only [hget]
    by_cases hmc : mcast = true
    · simp only [hmc, if_true]
      cases oracle with
      | none =>
        show Inv { s with
                   ndevs := s.ndevs.set i (s.ndevs.getD i default),
                   spares := s.spares }
        rw [set_getD_self]
        exact h
      | some g =>
        exact inv_commit_send h hi hne (by decide) hget
    · have hmc' : mcast = false := by
        revert hmc
        cases mcast <;> simp
      simp only [hmc', Bool.false_eq_true, if_false]
      exact inv_commit_send h hi hne (by decide) hget

theorem inv_send_op {s : NdccState} {i : Nat} {segs : List Nat}
    {oracle : List (Option Nat)} (h : Inv s) (hi : i < s.ndevs.length)
    (hne : (s.ndevs.getD i default).endpt ≠ none) :
    Inv (ndev_send_op s i segs oracle).1 := by
  unfold ndev_send_op ndev_send
  cases hget : ndev_queue_get (s.ndevs.getD i default).sendq s.spares ReqType.send with
  | none =>
    simp only [hget]
    show Inv { s with
               ndevs := s.ndevs.set i (s.ndevs.getD i default),
               spares := s.spares }
    rw [set_getD_self]
    exact h
  | some seq =>
    simp only [hget]
    cases htr : ndev_transfer segs oracle with
    | error revoked =>
      simp only [htr]
      show Inv { s with
                 ndevs := s.ndevs.set i (s.ndevs.getD i default),
                 spares := s.spares }
      rw [set_getD_self]
      exact h
    | ok grants =>
      simp only [htr]
      exact inv_commit_send h hi hne (by decide) hget

theorem inv_recv_op {s : NdccState} {i : Nat} {segs : List Nat}
    {oracle : List (Option Nat)} (h : Inv s) (hi : i < s.ndevs.length)
    (hne : (s.ndevs.getD i default).endpt ≠ none) :
    Inv (ndev_recv_op s i segs oracle).1 := by
  unfold ndev_recv_op ndev_recv
  cases hget : ndev_queue_get (s.ndevs.getD i default).recvq s.spares ReqType.recv with
  | none =>
    simp only [hget]
    show Inv { s with
               ndevs := s.ndevs.set i (s.ndevs.getD i default),
               spares := s.spares }
    rw [set_getD_self]
    exact h
  | some seq =>
    simp only [hget]
    cases htr : ndev_transfer segs oracle with
    | error revoked =>
      simp only [htr]
      show Inv { s with
                 ndevs := s.ndevs.set i (s.ndevs.getD i default),
                 spares := s.spares }
      rw [set_getD_self]
      exact h
    | ok grants =>
      simp only [htr]
      exact inv_commit_recv h hi hne hget

theorem remove_true {q : NdevQueue} {ty : ReqType} {seq spares : Nat}
    {q' : NdevQueue} {sp' : Nat} {gs : List Nat}
    (h : ndev_queue_remove q ty seq spares = (true, q', sp', gs)) :
    q.reqs ≠ [] ∧ q.head = seq ∧ (q.reqs.headD default).ty = ty ∧
    q' = (ndev_queue_advance q spares).1 ∧
    sp' = (ndev_queue_advance q spares).2.1 := by
  by_cases h1 : q.reqs = [] ∨ q.head ≠ seq ∨ (q.reqs.headD default).ty ≠ ty
  · rw [remove_neg _ _ _ _ h1] at h
    exact absurd (congrArg Prod.fst h) (by simp)
  · push_neg at h1
    obtain ⟨hne, hhd, hty⟩ := h1
    rw [remove_pos _ _ _ _ hne hhd hty] at h
    injection h with e1 e2
    injection e2 with e2 e3
    injection e3 with e3 e4
    exact ⟨hne, hhd, hty, e2.symm, e3.symm⟩

theorem inv_remove_send {s : NdccState} {i : Nat}
    (h : Inv s) (hi : i < s.ndevs.length)
    (hne : (s.ndevs.getD i default).endpt ≠ none)
    {x : NdevReq} {rest : List NdevReq}
    (hreqs : (s.ndevs.getD i default).sendq.reqs = x :: rest) :
    Inv { s with
          ndevs := s.ndevs.set i
            { s.ndevs.getD i default with
                sendq := (ndev_queue_advance (s.ndevs.getD i default).sendq
                  s.spares).1 },
          spares := (ndev_queue_advance (s.ndevs.getD i default).sendq
            s.spares).2.1 } := by
  have hslot := h.slots _ (getD_mem (l := s.ndevs) default hi)
  obtain ⟨ha1, ha2⟩ := advance_spec s.spares hreqs
  refine ⟨?_, h.maxle, ?_, ?_, ?_⟩
  · show (s.ndevs.set i _).length = NR_NDEV
    rw [List.length_set]
    exact h.len
  · intro k hk
    have hk' : s.ndevMax ≤ k := hk
    show ((s.ndevs.set i _).getD k default).endpt = none
    by_cases hik : i = k
    · subst hik
      exact absurd (h.high i hk') hne
    · rw [getD_set_ne _ default hik]
      exact h.high k hk'
  · refine spares_eq_set h hi _ ?_
    have hxty : x.ty ≠ ReqType.recv :=
      hslot.sq.tys x (by rw [hreqs]; exact List.mem_cons_self x rest)
    rw [ha2]
    simp only [slotSpares, ha1, hreqs, List.length_cons, NDEV_SENDQ, hxty,
      ne_eq, not_false_eq_true, true_and]
    split_ifs with hc <;> omega
  · refine forall_mem_set h.slots ?_
    refine ⟨qinv_advance hslot.sq, hslot.rq, ?_, fun he => absurd he hne⟩
    intro hz
    apply hslot.sync
    rw [ha1] at hz
    exact hz

theorem inv_remove_recv {s : NdccState} {i : Nat}
    (h : Inv s) (hi : i < s.ndevs.length)
    (hne : (s.ndevs.getD i default).endpt ≠ none)
    {x : NdevReq} {rest : List NdevReq}
    (hreqs : (s.ndevs.getD i default).recvq.reqs = x :: rest) :
    Inv { s with
          ndevs := s.ndevs.set i
            { s.ndevs.getD i default with
                recvq := (ndev_queue_advance (s.ndevs.getD i default).recvq
                  s.spares).1 },
          spares := (ndev_queue_advance (s.ndevs.getD i default).recvq
            s.spares).2.1 } := by
  have hslot := h.slots _ (getD_mem (l := s.ndevs) default hi)
  obtain ⟨ha1, ha2⟩ := advance_spec s.spares hreqs
  have hxty : x.ty = ReqType.recv :=
    hslot.rq.tys x (by rw [hreqs]; exact List.mem_cons_self x rest)
  refine ⟨?_, h.maxle, ?_, ?_, ?_⟩
  · show (s.ndevs.set i _).length = NR_NDEV
    rw [List.length_set]
    exact h.len
  · intro k hk
    have hk' : s.ndevMax ≤ k := hk
    show ((s.ndevs.set i _).getD k default).endpt = none
    by_cases hik : i = k
    · subst hik
      exact absurd (h.high i hk') hne
    · rw [getD_set_ne _ default hik]
      exact h.high k hk'
  · refine spares_eq_set h hi _ ?_
    rw [ha2]
    simp [slotSpares, hxty]
  · refine forall_mem_set h.slots ?_
    refine ⟨hslot.sq, qinv_advance hslot.rq, ?_, fun he => absurd he hne⟩
    intro hz
    have := hslot.sync hz
    rw [ha1]
    exact this

theorem inv_reply {s : NdccState} {i : Nat} {ty : ReqType} {id : Nat} {result : Int}
    (h : Inv s) (hi : i < s.ndevs.length)
    (hne : (s.ndevs.getD i default).endpt ≠ none) :
    Inv (ndev_reply s i ty id result).1 := by
  unfold ndev_reply
  by_cases hact : (s.ndevs.getD i default).sendq.max = 0
  · rw [if_pos hact]
    exact h
  rw [if_neg hact]
  cases ty with
  | conf =>
    rcases hrem : ndev_queue_remove (s.ndevs.getD i default).sendq ReqType.conf
        id s.spares with ⟨b, q', sp', gs⟩
    cases b with
    | false => exact h
    | true =>
      obtain ⟨hner, hhd, hhty, hq', hsp'⟩ := remove_true hrem
      rcases hrq : (s.ndevs.getD i default).sendq.reqs with _ | ⟨x, rest⟩
      · exact absurd hrq hner
      · rw [hq', hsp']
        exact inv_remove_send h hi hne hrq
  | send =>
    rcases hrem : ndev_queue_remove (s.ndevs.getD i default).sendq ReqType.send
        id s.spares with ⟨b, q', sp', gs⟩
    cases b with
    | false => exact h
    | true =>
      obtain ⟨hner, hhd, hhty, hq', hsp'⟩ := remove_true hrem
      rcases hrq : (s.ndevs.getD i default).sendq.reqs with _ | ⟨x, rest⟩
      · exact absurd hrq hner
      · rw [hq', hsp']
        exact inv_remove_send h hi hne hrq
  | recv =>
    rcases hrem : ndev_queue_remove (s.ndevs.getD i default).recvq ReqType.recv
        id s.spares with ⟨b, q', sp', gs⟩
    cases b with
    | false => exact h
    | true =>
      obtain ⟨hner, hhd, hhty, hq', hsp'⟩ := remove_true hrem
      rcases hrq : (s.ndevs.getD i default).recvq.reqs with _ | ⟨x, rest⟩
      · exact absurd hrq hner
      · rw [hq', hsp']
        exact inv_remove_recv h hi hne hrq

/-- Every reachable state satisfies the invariant. -/
theorem reachable_inv {s : NdccState} (h : Reachable s) : Inv s := by
  induction h with
  | init =>
    refine ⟨by decide, by decide, ?_, by decide, ?_⟩
    · intro k hk
      rcases Nat.lt_or_ge k (ndev_init_state.ndevs.length) with hlt | hge
      · have hmem := getD_mem (l := ndev_init_state.ndevs) default hlt
        have hself := set_getD_self (l := ndev_init_state.ndevs) (i := k) default
        simp only [ndev_init_state, List.mem_map] at hmem
        obtain ⟨slot, _, heq⟩ := hmem
        show (ndev_init_state.ndevs.getD k default).endpt = none
        simp only [ndev_init_state]
        rw [← heq]
      · rw [getD_len_le default hge]
        rfl
    · intro nd hnd
      simp only [ndev_init_state, List.mem_map] at hnd
      obtain ⟨slot, hslot, rfl⟩ := hnd
      exact ⟨qinv_empty (Nat.mod_lt _ U32_pos), qinv_empty (Nat.mod_lt _ U32_pos),
        fun _ => rfl, fun _ => ⟨rfl, rfl⟩⟩
  | up s label endpt _ ih => exact inv_up ih
  | down s i _ him hne ih =>
    exact inv_down ih (by rw [ih.len]; exact lt_of_lt_of_le him ih.maxle)
  | initReply s i m addOk enableOk _ him hne hid hms hmr ih =>
    exact inv_init_reply ih him
  | confOp s i mcast oracle _ him hne hact ih =>
    exact inv_conf_op ih (by rw [ih.len]; exact lt_of_lt_of_le him ih.maxle) hne
  | sendOp s i segs oracle _ him hne hact ih =>
    exact inv_send_op ih (by rw [ih.len]; exact lt_of_lt_of_le him ih.maxle) hne
  | recvOp s i segs oracle _ him hne hact ih =>
    exact inv_recv_op ih (by rw [ih.len]; exact lt_of_lt_of_le him ih.maxle) hne
  | reply s i ty id result _ him hne ih =>
    exact inv_reply ih (by rw [ih.len]; exact lt_of_lt_of_le him ih.maxle) hne

/-! Concrete reachable states used by the witnesses: a driver "e0" comes up
(endpoint 7) and answers its init request with name "eth0", a six-byte
hardware address, max_send = 16 and max_recv = 16 (the spec's S1 scenario). -/

def upState : NdccState := (ndev_up ndev_init_state "e0" 7).1

def actMsg : InitReplyMsg := ⟨1, [101, 116, 104, 48, 0], 6, 16, 16⟩

def actState : NdccState := (ndev_init_reply upState 0 actMsg true true).1

theorem reach_upState : Reachable upState :=
  Reachable.up ndev_init_state "e0" 7 Reachable.init

theorem reach_actState : Reachable actState :=
  Reachable.initReply upState 0 actMsg true true reach_upState
    (by decide) (by decide) (by decide) (by decide) (by decide)

def confState : NdccState := (ndev_conf_op actState 0 false none).1

theorem reach_confState : Reachable confState :=
  Reachable.confOp actState 0 false none reach_actState
    (by decide) (by decide) (by decide)

def sState1 : NdccState := (ndev_send_op actState 0 [100] [some 11]).1

def sState2 : NdccState := (ndev_send_op sState1 0 [100] [some 12]).1

def sState3 : NdccState := (ndev_send_op sState2 0 [100] [some 13]).1

theorem reach_sState1 : Reachable sState1 :=
  Reachable.sendOp actState 0 [100] [some 11] reach_actState
    (by decide) (by decide) (by decide)

theorem reach_sState2 : Reachable sState2 :=
  Reachable.sendOp sState1 0 [100] [some 12] reach_sState1
    (by decide) (by decide) (by decide)

theorem reach_sState3 : Reachable sState3 :=
  Reachable.sendOp sState2 0 [100] [some 13] reach_sState2
    (by decide) (by decide) (by decide)

/-! Claim C1. -/

def c1_state_1 : NdccState := (ndev_up ndev_init_state "e0" 7).1

def c1_state_2 : NdccState :=
  (ndev_init_reply c1_state_1 0 ⟨1, [101, 116, 104, 48, 0], 6, 16, 16⟩ true true).1

def c1_state_3 : NdccState := (ndev_up c1_state_2 "e0" 8).1

def c1_state_4 : NdccState := (ndev_up c1_state_3 "e0" 9).1

/-- C1: the claim says `pending` always equals the number of driver slots in
the Initializing state.  The code violates this: after up("e0"), a valid init
reply (slot Active), and two consecutive restarts of "e0" before the driver
re-answers its init request, the restart branch of ndev_up (ndev.c lines
384-388) increments `pending` a second time because it tests
`ndev_ethif != NULL` rather than whether the slot was Active, leaving
`pending = 2` while exactly one slot is Initializing. -/
theorem c1_pending_counter_bug :
    Reachable c1_state_4 ∧ c1_state_4.pending = 2 ∧ countInitializing c1_state_4 = 1 := by
  refine ⟨?_, by decide, by decide⟩
  exact Reachable.up c1_state_3 "e0" 9
    (Reachable.up c1_state_2 "e0" 8
      (Reachable.initReply c1_state_1 0 _ true true
        (Reachable.up ndev_init_state "e0" 7 Reachable.init)
        (by decide) (by decide) (by decide) (by decide) (by decide)))

/-! Claim C2. -/

/-- C2: for an Active slot, a send or configure request is denied admission
(Busy) iff the send queue is at its cap, or it holds at least NDEV_SENDQ
requests and the spare pool is empty; a receive request is denied iff the
receive queue is at its cap, independent of the spare pool. -/
theorem c2_admission_policy (s : NdccState) (i : Nat)
    (hact : 0 < (s.ndevs.getD i default).sendq.max) :
    (∀ (mcast : Bool) (oracle : Option Nat),
      ((ndev_conf_op s i mcast oracle).2 = NdevRes.busy ↔
        ((s.ndevs.getD i default).sendq.count = (s.ndevs.getD i default).sendq.max ∨
         (NDEV_SENDQ ≤ (s.ndevs.getD i default).sendq.count ∧ s.spares = 0)))) ∧
    (∀ (segs : List Nat) (oracle : List (Option Nat)),
      ((ndev_send_op s i segs oracle).2 = NdevRes.busy ↔
        ((s.ndevs.getD i default).sendq.count = (s.ndevs.getD i default).sendq.max ∨
         (NDEV_SENDQ ≤ (s.ndevs.getD i default).sendq.count ∧ s.spares = 0)))) ∧
    (∀ (segs : List Nat) (oracle : List (Option Nat)),
      ((ndev_recv_op s i segs oracle).2 = NdevRes.busy ↔
        (s.ndevs.getD i default).recvq.count = (s.ndevs.getD i default).recvq.max)) := by
  refine ⟨?_, ?_, ?_⟩
  · intro mcast oracle
    unfold ndev_conf_op ndev_conf
    cases hget : ndev_queue_get (s.ndevs.getD i default).sendq s.spares ReqType.conf with
    | none =>
      simp only [hget]
      have := (get_eq_none_iff (s.ndevs.getD i default).sendq s.spares ReqType.conf).1 hget
      simpa using this
    | some seq =>
      simp only [hget]
      have hn : ¬ ((s.ndevs.getD i default).sendq.count
            = (s.ndevs.getD i default).sendq.max ∨
          (NDEV_SENDQ ≤ (s.ndevs.getD i default).sendq.count ∧ s.spares = 0)) := by
        intro hc
        have : ndev_queue_get (s.ndevs.getD i default).sendq s.spares ReqType.conf
            = none := by
          rw [get_eq_none_iff]
          rcases hc with hc | hc
          · exact Or.inl hc
          · exact Or.inr ⟨by decide, hc.1, hc.2⟩
        rw [this] at hget
        exact Option.noConfusion hget
      by_cases hmc : mcast = true
      · simp only [hmc, if_true]
        cases oracle with
        | none => simpa using hn
        | some g => simpa using hn
      · have hmc' : mcast = false := by revert hmc; cases mcast <;> simp
        simp only [hmc', Bool.false_eq_true, if_false]
        simpa using hn
  · intro segs oracle
    unfold ndev_send_op ndev_send
    cases hget : ndev_queue_get (s.ndevs.getD i default).sendq s.spares ReqType.send with
    | none =>
      simp only [hget]
      have := (get_eq_none_iff (s.ndevs.getD i default).sendq s.spares ReqType.send).1 hget
      simpa using this
    | some seq =>
      simp only [hget]
      have hn : ¬ ((s.ndevs.getD i default).sendq.count
            = (s.ndevs.getD i default).sendq.max ∨
          (NDEV_SENDQ ≤ (s.ndevs.getD i default).sendq.count ∧ s.spares = 0)) := by
        intro hc
        have : ndev_queue_get (s.ndevs.getD i default).sendq s.spares ReqType.send
            = none := by
          rw [get_eq_none_iff]
          rcases hc with hc | hc
          · exact Or.inl hc
          · exact Or.inr ⟨by decide, hc.1, hc.2⟩
        rw [this] at hget
        exact Option.noConfusion hget
      cases htr : ndev_transfer segs oracle with
      | error revoked => simpa [htr] using hn
      | ok grants => simpa [htr] using hn
  · intro segs oracle
    unfold ndev_recv_op ndev_recv
    cases hget : ndev_queue_get (s.ndevs.getD i default).recvq s.spares ReqType.recv with
    | none =>
      simp only [hget]
      have := (get_eq_none_iff (s.ndevs.getD i default).recvq s.spares ReqType.recv).1 hget
      simpa using this
    | some seq =>
      simp only [hget]
      have hn : ¬ (s.ndevs.getD i default).recvq.count
          = (s.ndevs.getD i default).recvq.max := by
        intro hc
        have : ndev_queue_get (s.ndevs.getD i default).recvq s.spares ReqType.recv
            = none := by
          rw [get_eq_none_iff]
          exact Or.inl hc
        rw [this] at hget
        exact Option.noConfusion hget
      cases htr : ndev_transfer segs oracle with
      | error revoked => simpa [htr] using hn
      | ok grants => simpa [htr] using hn

/-- C2 witness: the admission policy evaluated on the concrete Active state
reached in the S1 scenario. -/
theorem c2_admission_policy_witness :
    0 < (actState.ndevs.getD 0 default).sendq.max ∧
    ((∀ (mcast : Bool) (oracle : Option Nat),
      ((ndev_conf_op actState 0 mcast oracle).2 = NdevRes.busy ↔
        ((actState.ndevs.getD 0 default).sendq.count
            = (actState.ndevs.getD 0 default).sendq.max ∨
         (NDEV_SENDQ ≤ (actState.ndevs.getD 0 default).sendq.count ∧
          actState.spares = 0)))) ∧
    (∀ (segs : List Nat) (oracle : List (Option Nat)),
      ((ndev_send_op actState 0 segs oracle).2 = NdevRes.busy ↔
        ((actState.ndevs.getD 0 default).sendq.count
            = (actState.ndevs.getD 0 default).sendq.max ∨
         (NDEV_SENDQ ≤ (actState.ndevs.getD 0 default).sendq.count ∧
          actState.spares = 0)))) ∧
    (∀ (segs : List Nat) (oracle : List (Option Nat)),
      ((ndev_recv_op actState 0 segs oracle).2 = NdevRes.busy ↔
        (actState.ndevs.getD 0 default).recvq.count
          = (actState.ndevs.getD 0 default).recvq.max))) :=
  ⟨by decide, c2_admission_policy actState 0 (by decide)⟩

/-! Claim C3. -/

/-- C3: at every reachable state the spare counter satisfies
`spares_free + Σ max(0, send_queue.count − NDEV_SENDQ) = NREQ_SPARES`
(equivalently `spares_free = NREQ_SPARES − Σ …`); commits, releases and queue
resets preserve the equation because every reachable state satisfies it. -/
theorem c3_spare_pool_equation (s : NdccState) (h : Reachable s) :
    s.spares + usedOf s.ndevs = NREQ_SPARES ∧
    s.spares = NREQ_SPARES
      - (s.ndevs.map (fun nd => nd.sendq.count - NDEV_SENDQ)).sum := by
  have hinv := reachable_inv h
  refine ⟨hinv.spares_eq, ?_⟩
  show s.spares = NREQ_SPARES - usedOf s.ndevs
  have := hinv.spares_eq
  omega

/-- C3 witness: the spare-pool equation at a reachable state holding three
in-flight send requests (one spare consumed, seven free). -/
theorem c3_spare_pool_equation_witness :
    Reachable sState3 ∧
    (sState3.spares + usedOf sState3.ndevs = NREQ_SPARES ∧
     sState3.spares = NREQ_SPARES
       - (sState3.ndevs.map (fun nd => nd.sendq.count - NDEV_SENDQ)).sum) :=
  ⟨reach_sState3, c3_spare_pool_equation sState3 reach_sState3⟩

/-! Claim C4. -/

def c4_empty_queue : NdevQueue := { head := 5, max := 3, reqs := [] }

/-- C4 counterexample: the claim says every queue reset increments `head` by
at least one, including for a queue that was empty at the moment of the
reset.  Resetting the empty queue with head 5 leaves the head at 5:
ndev_queue_reset only bumps the head once per drained request. -/
theorem c4_reset_empty_head_unchanged :
    (ndev_queue_reset c4_empty_queue 8).1.head = 5 ∧
    ¬ c4_empty_queue.head + 1 ≤ (ndev_queue_reset c4_empty_queue 8).1.head := by
  decide

/-- C4 (amended): every queue reset leaves the queue with max = 0 and
count = 0 and advances head by exactly the number of drained requests
(mod 2^32) - hence by at least one when the queue was non-empty, and not at
all when it was empty. -/
theorem c4_reset_spec (q : NdevQueue) (spares : Nat) (hlt : q.head < U32) :
    (ndev_queue_reset q spares).1.max = 0 ∧
    (ndev_queue_reset q spares).1.count = 0 ∧
    (ndev_queue_reset q spares).1.head = (q.head + q.count) % U32 ∧
    (q.reqs ≠ [] → q.head + 1 ≤ q.head + q.count) := by
  obtain ⟨h1, h2, h3, _⟩ := reset_spec q spares hlt
  refine ⟨h3, ?_, h2, ?_⟩
  · show (ndev_queue_reset q spares).1.reqs.length = 0
    rw [h1]
    rfl
  · intro hne
    have : 0 < q.reqs.length := List.length_pos.2 hne
    show q.head + 1 ≤ q.head + q.reqs.length
    omega

/-! Claim C6. -/

/-- C6: at every reachable state, the sequence ids of the pending descriptors
of every queue, in queue order, are exactly head, head+1, ..., head+count-1
(uint32); ndev_queue_get assigns a new request the id head + count, and
ndev_queue_advance increments head by exactly one and decrements count by
one. -/
theorem c6_sequence_ids (s : NdccState) (h : Reachable s) :
    (∀ nd ∈ s.ndevs,
      (∀ k, (hk : k < nd.sendq.reqs.length) →
        (nd.sendq.reqs.get ⟨k, hk⟩).seq = (nd.sendq.head + k) % U32) ∧
      (∀ k, (hk : k < nd.recvq.reqs.length) →
        (nd.recvq.reqs.get ⟨k, hk⟩).seq = (nd.recvq.head + k) % U32)) ∧
    (∀ (q : NdevQueue) (spares : Nat) (ty : ReqType) (seq : Nat),
      ndev_queue_get q spares ty = some seq → seq = (q.head + q.count) % U32) ∧
    (∀ (q : NdevQueue) (spares : Nat) (x : NdevReq) (rest : List NdevReq),
      q.reqs = x :: rest →
      (ndev_queue_advance q spares).1.head = (q.head + 1) % U32 ∧
      (ndev_queue_advance q spares).1.count + 1 = q.count) := by
  refine ⟨?_, ?_, ?_⟩
  · intro nd hnd
    have hslot := (reachable_inv h).slots nd hnd
    exact ⟨seqIdsFrom_get hslot.sq.seqs, seqIdsFrom_get hslot.rq.seqs⟩
  · intro q spares ty seq hget
    exact (get_eq_some hget).2.2
  · intro q spares x rest hreqs
    obtain ⟨ha1, _⟩ := advance_spec spares hreqs
    constructor
    · rw [ha1]
    · rw [ha1]
      show rest.length + 1 = q.reqs.length
      rw [hreqs]
      rfl

/-- C6 witness: the sequence structure evaluated at the reachable state with
three pending sends (ids 2, 3, 4 behind head 2). -/
theorem c6_sequence_ids_witness :
    Reachable sState3 ∧
    ((∀ nd ∈ sState3.ndevs,
      (∀ k, (hk : k < nd.sendq.reqs.length) →
        (nd.sendq.reqs.get ⟨k, hk⟩).seq = (nd.sendq.head + k) % U32) ∧
      (∀ k, (hk : k < nd.recvq.reqs.length) →
        (nd.recvq.reqs.get ⟨k, hk⟩).seq = (nd.recvq.head + k) % U32)) ∧
    (∀ (q : NdevQueue) (spares : Nat) (ty : ReqType) (seq : Nat),
      ndev_queue_get q spares ty = some seq → seq = (q.head + q.count) % U32) ∧
    (∀ (q : NdevQueue) (spares : Nat) (x : NdevReq) (rest : List NdevReq),
      q.reqs = x :: rest →
      (ndev_queue_advance q spares).1.head = (q.head + 1) % U32 ∧
      (ndev_queue_advance q spares).1.count + 1 = q.count)) :=
  ⟨reach_sState3, c6_sequence_ids sState3 reach_sState3⟩

/-! Claim C7. -/

/-- C7: on every valid init reply that leads to (re)enabling the interface,
the core sets send_queue.max to min(advertised max_send, 255) and
recv_queue.max to min(advertised max_recv, NDEV_RECVQ), and increments both
queue heads by exactly one (uint32), before calling ethif_enable: the state
handed to the ethif layer carries the new maxima and heads, and ethif_enable
is among the emitted calls. -/
theorem c7_activation_maxima (s : NdccState) (i : Nat) (m : InitReplyMsg)
    (addOk : Bool) (hi : i < s.ndevs.length)
    (hinit : (s.ndevs.getD i default).sendq.max = 0)
    (hid : m.id = (s.ndevs.getD i default).sendq.head)
    (hname : name_invalid m.name = false)
    (hhw1 : 1 ≤ m.hwaddrLen) (hhw2 : m.hwaddrLen ≤ NDEV_HWADDR_MAX)
    (hms1 : 1 ≤ m.maxSend) (hms2 : m.maxSend ≤ 255)
    (hmr1 : 1 ≤ m.maxRecv) (hmr2 : m.maxRecv ≤ 255)
    (heth : (s.ndevs.getD i default).ethif = true ∨ addOk = true) :
    ((ndev_init_reply s i m addOk true).1.ndevs.getD i default).sendq.max
      = min m.maxSend 255 ∧
    ((ndev_init_reply s i m addOk true).1.ndevs.getD i default).recvq.max
      = min m.maxRecv NDEV_RECVQ ∧
    ((ndev_init_reply s i m addOk true).1.ndevs.getD i default).sendq.head
      = ((s.ndevs.getD i default).sendq.head + 1) % U32 ∧
    ((ndev_init_reply s i m addOk true).1.ndevs.getD i default).recvq.head
      = ((s.ndevs.getD i default).recvq.head + 1) % U32 ∧
    Output.ethifEnable ∈ (ndev_init_reply s i m addOk true).2 := by
  unfold ndev_init_reply
  rw [if_neg (show ¬ (0 < (s.ndevs.getD i default).sendq.max ∨
      m.id ≠ (s.ndevs.getD i default).sendq.head) by omega)]
  rw [if_neg (show ¬ name_invalid m.name = true by simp [hname])]
  rw [if_neg (show ¬ (m.hwaddrLen < 1 ∨ NDEV_HWADDR_MAX < m.hwaddrLen) by omega)]
  rw [if_neg (show ¬ (m.maxSend < 1 ∨ m.maxRecv < 1) by omega)]
  by_cases hethb : (s.ndevs.getD i default).ethif = true
  · simp only [hethb, Bool.not_true, Bool.false_eq_true, if_false, if_true]
    rw [getD_set_self _ default hi]
    refine ⟨?_, ?_, rfl, rfl, by simp⟩
    · show m.maxSend = min m.maxSend 255
      omega
    · show (if NDEV_RECVQ < m.maxRecv then NDEV_RECVQ else m.maxRecv)
        = min m.maxRecv NDEV_RECVQ
      split_ifs with hc <;> omega
  · have hethb' : (s.ndevs.getD i default).ethif = false := by
      revert hethb
      cases (s.ndevs.getD i default).ethif <;> simp
    have haddOk : addOk = true := by
      rcases heth with hh | hh
      · exact absurd hh hethb
      · exact hh
    simp only [hethb', haddOk, Bool.not_false, if_true]
    rw [getD_set_self _ default hi]
    refine ⟨?_, ?_, rfl, rfl, by simp⟩
    · show m.maxSend = min m.maxSend 255
      omega
    · show (if NDEV_RECVQ < m.maxRecv then NDEV_RECVQ else m.maxRecv)
        = min m.maxRecv NDEV_RECVQ
      split_ifs with hc <;> omega

/-- C7 witness: the S1 scenario init reply (max_send 16, max_recv 16) on the
freshly started driver: send max 16 = min 16 255, recv max 2 = min 16 2,
both heads bumped once. -/
theorem c7_activation_maxima_witness :
    (upState.ndevs.getD 0 default).sendq.max = 0 ∧
    actMsg.id = (upState.ndevs.getD 0 default).sendq.head ∧
    (((ndev_init_reply upState 0 actMsg true true).1.ndevs.getD 0 default).sendq.max
       = min actMsg.maxSend 255 ∧
     ((ndev_init_reply upState 0 actMsg true true).1.ndevs.getD 0 default).recvq.max
       = min actMsg.maxRecv NDEV_RECVQ ∧
     ((ndev_init_reply upState 0 actMsg true true).1.ndevs.getD 0 default).sendq.head
       = ((upState.ndevs.getD 0 default).sendq.head + 1) % U32 ∧
     ((ndev_init_reply upState 0 actMsg true true).1.ndevs.getD 0 default).recvq.head
       = ((upState.ndevs.getD 0 default).recvq.head + 1) % U32 ∧
     Output.ethifEnable ∈ (ndev_init_reply upState 0 actMsg true true).2) :=
  ⟨by decide, by decide,
   c7_activation_maxima upState 0 actMsg true (by decide) (by decide) (by decide)
     (by decide) (by decide) (by decide) (by decide) (by decide) (by decide)
     (by decide) (Or.inr rfl)⟩

/-! Claim C8. -/

def c8_state_1 : NdccState := (ndev_up ndev_init_state "e0" 7).1

def c8_state_2 : NdccState :=
  (ndev_init_reply c8_state_1 0 ⟨1, [101, 116, 104, 48, 0], 6, 16, 16⟩ true true).1

def c8_state_3 : NdccState := (ndev_up c8_state_2 "e0" 8).1

def c8_bad_msg : InitReplyMsg := ⟨2, [0, 0, 0, 0, 0], 6, 16, 16⟩

def c8_step : NdccState × List Output := ndev_init_reply c8_state_3 0 c8_bad_msg true true

/-- C8: the claim says an invalid init reply to an Initializing slot vacates
the slot, logs, decrements `pending`, and calls neither ethif_add nor
ethif_enable.  The code violates the `pending` part for a restarting slot:
after up("e0"), a valid init reply (Active), and a restart up("e0") - slot
Initializing with its ethif object retained, pending = 1 - an init reply with
an empty name makes ndev_init_reply call ndev_down, which takes the
ethif_remove branch (ndev.c lines 444-447) and leaves `pending` at 1 instead
of decrementing it to 0.  The slot does become Vacant, a log line is emitted,
and neither ethif_add nor ethif_enable is called. -/
theorem c8_invalid_reply_pending_bug :
    Reachable c8_state_3 ∧
    (c8_state_3.ndevs.getD 0 default).sendq.max = 0 ∧
    c8_bad_msg.id = (c8_state_3.ndevs.getD 0 default).sendq.head ∧
    name_invalid c8_bad_msg.name = true ∧
    (c8_step.1.ndevs.getD 0 default).endpt = none ∧
    Output.logLine ∈ c8_step.2 ∧
    Output.ethifAdd ∉ c8_step.2 ∧
    Output.ethifEnable ∉ c8_step.2 ∧
    c8_state_3.pending = 1 ∧
    c8_step.1.pending = 1 := by
  refine ⟨?_, by decide, by decide, by decide, by decide, by decide, by decide,
    by decide, by decide, by decide⟩
  exact Reachable.up c8_state_2 "e0" 8
    (Reachable.initReply c8_state_1 0 _ true true
      (Reachable.up ndev_init_state "e0" 7 Reachable.init)
      (by decide) (by decide) (by decide) (by decide) (by decide))

/-! Claim C9. -/

theorem transfer_error_allocated (segs : List Nat) :
    ∀ (oracle : List (Option Nat)) (acc gs : List Nat),
    ndev_transfer_go segs oracle acc = Except.error gs →
    gs = (grantsAllocated segs oracle).reverse ++ acc := by
  induction segs with
  | nil =>
    intro oracle acc gs hgo
    simp [ndev_transfer_go] at hgo
  | cons sg rest ih =>
    intro oracle acc gs hgo
    cases oracle with
    | nil =>
      simp only [ndev_transfer_go] at hgo
      injection hgo with hgo
      simp [grantsAllocated, hgo]
    | cons o os =>
      cases o with
      | none =>
        simp only [ndev_transfer_go] at hgo
        injection hgo with hgo
        simp [grantsAllocated, hgo]
      | some g =>
        simp only [ndev_transfer_go] at hgo
        have := ih os (g :: acc) gs hgo
        rw [this]
        simp [grantsAllocated, List.reverse_cons, List.append_assoc]

/-- C9: if grant allocation fails partway while building a configure, send
or receive request that passed admission, the call returns ENOMEM, exactly
the grants already allocated for the request are revoked (in reverse
allocation order), the descriptor is not committed, and the queue (head,
count, pending list) and the spare counter are unchanged. -/
theorem c9_grant_rollback (q : NdevQueue) (spares : Nat) :
    (∀ (seq : Nat),
      ndev_queue_get q spares ReqType.conf = some seq →
      ndev_conf q spares true none = ⟨NdevRes.nomem, q, spares, []⟩) ∧
    (∀ (segs : List Nat) (oracle : List (Option Nat)) (seq : Nat) (gs : List Nat),
      ndev_queue_get q spares ReqType.send = some seq →
      ndev_transfer segs oracle = Except.error gs →
      ndev_send q spares segs oracle = ⟨NdevRes.nomem, q, spares, gs⟩ ∧
      gs = (grantsAllocated segs oracle).reverse) ∧
    (∀ (segs : List Nat) (oracle : List (Option Nat)) (seq : Nat) (gs : List Nat),
      ndev_queue_get q spares ReqType.recv = some seq →
      ndev_transfer segs oracle = Except.error gs →
      ndev_recv q spares segs oracle = ⟨NdevRes.nomem, q, spares, gs⟩ ∧
      gs = (grantsAllocated segs oracle).reverse) := by
  refine ⟨?_, ?_, ?_⟩
  · intro seq hget
    unfold ndev_conf
    rw [hget]
    rfl
  · intro segs oracle seq gs hget htr
    constructor
    · unfold ndev_send
      rw [hget, htr]
    · have := transfer_error_allocated segs oracle [] gs htr
      simpa using this
  · intro segs oracle seq gs hget htr
    constructor
    · unfold ndev_recv
      rw [hget, htr]
    · have := transfer_error_allocated segs oracle [] gs htr
      simpa using this

/-- C9 witness: a three-segment send whose third grant allocation fails:
ENOMEM, grants 1 and 2 revoked in reverse order, queue and spares
untouched. -/
theorem c9_grant_rollback_witness :
    ndev_queue_get { head := 5, max := 4, reqs := [] } 8 ReqType.send = some 5 ∧
    ndev_transfer [10, 20, 30] [some 1, some 2, none] = Except.error [2, 1] ∧
    (ndev_send { head := 5, max := 4, reqs := [] } 8 [10, 20, 30]
        [some 1, some 2, none]
      = ⟨NdevRes.nomem, { head := 5, max := 4, reqs := [] }, 8, [2, 1]⟩ ∧
     [2, 1] = (grantsAllocated [10, 20, 30] [some 1, some 2, none]).reverse) :=
  ⟨by decide, rfl,
   (c9_grant_rollback { head := 5, max := 4, reqs := [] } 8).2.1
     [10, 20, 30] [some 1, some 2, none] 5 [2, 1] (by decide) rfl⟩

/-! Claim C10. -/

/-- C10: for every Active driver slot at a reachable state, ndev_can_recv
returns true iff recv_queue.count < recv_queue.max, which holds exactly when
an immediately following ndev_recv on the same slot is not denied admission
(does not return EBUSY), whatever the buffer chain and grant oracle. -/
theorem c10_can_recv_iff (s : NdccState) (h : Reachable s) (i : Nat)
    (hi : i < s.ndevMax) (hact : 0 < (s.ndevs.getD i default).sendq.max)
    (segs : List Nat) (oracle : List (Option Nat)) :
    (ndev_can_recv s i = true ↔
      (s.ndevs.getD i default).recvq.count < (s.ndevs.getD i default).recvq.max) ∧
    (ndev_can_recv s i = true ↔
      (ndev_recv_op s i segs oracle).2 ≠ NdevRes.busy) := by
  have hinv := reachable_inv h
  have hil : i < s.ndevs.length := by
    rw [hinv.len]; exact lt_of_lt_of_le hi hinv.maxle
  have hslot := hinv.slots _ (getD_mem (l := s.ndevs) default hil)
  have hcle := hslot.rq.count_le
  have h1 : ndev_can_recv s i = true ↔
      (s.ndevs.getD i default).recvq.count < (s.ndevs.getD i default).recvq.max := by
    unfold ndev_can_recv
    simp
  refine ⟨h1, h1.trans ?_⟩
  unfold ndev_recv_op ndev_recv
  cases hget : ndev_queue_get (s.ndevs.getD i default).recvq s.spares ReqType.recv with
  | none =>
    simp only [hget]
    have hnone := (get_eq_none_iff _ _ _).1 hget
    have heq : (s.ndevs.getD i default).recvq.count
        = (s.ndevs.getD i default).recvq.max := by
      rcases hnone with hc | hc
      · exact hc
      · exact absurd rfl hc.1
    constructor
    · intro hlt
      omega
    · intro hb
      exact absurd rfl hb
  | some seq =>
    simp only [hget]
    have hne := (get_eq_some hget).1
    constructor
    · intro _
      cases htr : ndev_transfer segs oracle with
      | error revoked => simp [htr]
      | ok grants => simp [htr]
    · intro _
      omega

/-- C10 witness: on the Active S1 state (no receives pending, cap 2),
ndev_can_recv is true and a receive is admitted. -/
theorem c10_can_recv_iff_witness :
    Reachable actState ∧ 0 < actState.ndevMax ∧
    0 < (actState.ndevs.getD 0 default).sendq.max ∧
    ((ndev_can_recv actState 0 = true ↔
      (actState.ndevs.getD 0 default).recvq.count
        < (actState.ndevs.getD 0 default).recvq.max) ∧
     (ndev_can_recv actState 0 = true ↔
      (ndev_recv_op actState 0 [100] [some 31]).2 ≠ NdevRes.busy)) :=
  ⟨reach_actState, by decide, by decide,
   c10_can_recv_iff actState reach_actState 0 (by decide) (by decide) [100] [some 31]⟩

def c4_two_queue : NdevQueue :=
  { head := 5, max := 4, reqs := [⟨ReqType.send, 5, []⟩, ⟨ReqType.send, 6, []⟩] }

/-! Claim C5. -/

/-- The condition under which a configure/send/receive reply matches: the
queue for its kind is non-empty, the head sequence equals the reply id, and
the head descriptor's kind equals the reply kind. -/
def replyMatches (nd : Ndev) (ty : ReqType) (id : Nat) : Prop :=
  (queueOf nd ty).reqs ≠ [] ∧ (queueOf nd ty).head = id ∧
  ((queueOf nd ty).reqs.headD default).ty = ty

/-- Write back the queue a reply of the given type was matched against. -/
def setQueueOf (nd : Ndev) (ty : ReqType) (q : NdevQueue) : Ndev :=
  match ty with
  | ReqType.recv => { nd with recvq := q }
  | _ => { nd with sendq := q }

theorem queueOf_setQueueOf (nd : Ndev) (ty : ReqType) (q : NdevQueue) :
    queueOf (setQueueOf nd ty q) ty = q := by
  cases ty <;> rfl

theorem reply_pos_eq (s : NdccState) (i : Nat) (ty : ReqType) (id : Nat)
    (result : Int) (hact : ¬ (s.ndevs.getD i default).sendq.max = 0)
    (hm : replyMatches (s.ndevs.getD i default) ty id) :
    ndev_reply s i ty id result =
      ({ s with
          ndevs := s.ndevs.set i (setQueueOf (s.ndevs.getD i default) ty
            (ndev_queue_advance (queueOf (s.ndevs.getD i default) ty) s.spares).1),
          spares :=
            (ndev_queue_advance (queueOf (s.ndevs.getD i default) ty)
              s.spares).2.1 },
       [callbackOf ty result]) := by
  obtain ⟨h1, h2, h3⟩ := hm
  unfold ndev_reply
  rw [if_neg hact]
  cases ty
  · rw [remove_pos (s.ndevs.getD i default).sendq ReqType.conf id s.spares h1 h2 h3]
    rfl
  · rw [remove_pos (s.ndevs.getD i default).sendq ReqType.send id s.spares h1 h2 h3]
    rfl
  · rw [remove_pos (s.ndevs.getD i default).recvq ReqType.recv id s.spares h1 h2 h3]
    rfl

theorem reply_drop_eq (s : NdccState) (i : Nat) (ty : ReqType) (id : Nat)
    (result : Int)
    (h : (s.ndevs.getD i default).sendq.max = 0 ∨
      ¬ replyMatches (s.ndevs.getD i default) ty id) :
    ndev_reply s i ty id result = (s, []) := by
  unfold ndev_reply
  by_cases hact : (s.ndevs.getD i default).sendq.max = 0
  · rw [if_pos hact]
  · rw [if_neg hact]
    rcases h with h | hnm
    · exact absurd h hact
    · have hd : (queueOf (s.ndevs.getD i default) ty).reqs = [] ∨
          (queueOf (s.ndevs.getD i default) ty).head ≠ id ∨
          ((queueOf (s.ndevs.getD i default) ty).reqs.headD default).ty ≠ ty := by
        by_cases a1 : (queueOf (s.ndevs.getD i default) ty).reqs = []
        · exact Or.inl a1
        by_cases a2 : (queueOf (s.ndevs.getD i default) ty).head = id
        · by_cases a3 : ((queueOf (s.ndevs.getD i default) ty).reqs.headD default).ty = ty
          · exact absurd ⟨a1, a2, a3⟩ hnm
          · exact Or.inr (Or.inr a3)
        · exact Or.inr (Or.inl a2)
      cases ty
      · rw [remove_neg (s.ndevs.getD i default).sendq ReqType.conf id s.spares hd]
      · rw [remove_neg (s.ndevs.getD i default).sendq ReqType.send id s.spares hd]
      · rw [remove_neg (s.ndevs.getD i default).recvq ReqType.recv id s.spares hd]

/-- C5: a configure, send or receive reply removes the head of the matching
queue and is forwarded to ethif (ethif_configured / ethif_sent /
ethif_received with the reply's result) iff that queue is non-empty, its head
sequence equals the reply id, and the head descriptor's kind equals the reply
kind; in every other case the reply is dropped, the state is unchanged and no
ethif callback occurs. -/
theorem c5_reply_matching (s : NdccState) (h : Reachable s) (i : Nat)
    (hi : i < s.ndevMax) (ty : ReqType) (id : Nat) (result : Int) :
    (replyMatches (s.ndevs.getD i default) ty id →
      ((ndev_reply s i ty id result).2 = [callbackOf ty result] ∧
       (queueOf ((ndev_reply s i ty id result).1.ndevs.getD i default) ty).reqs
         = (queueOf (s.ndevs.getD i default) ty).reqs.tail ∧
       (queueOf ((ndev_reply s i ty id result).1.ndevs.getD i default) ty).head
         = ((queueOf (s.ndevs.getD i default) ty).head + 1) % U32)) ∧
    (¬ replyMatches (s.ndevs.getD i default) ty id →
      ((ndev_reply s i ty id result).1 = s ∧ (ndev_reply s i ty id result).2 = [])) := by
  have hinv := reachable_inv h
  have hil : i < s.ndevs.length := by
    rw [hinv.len]; exact lt_of_lt_of_le hi hinv.maxle
  have hslot := hinv.slots _ (getD_mem (l := s.ndevs) default hil)
  constructor
  · intro hm
    by_cases hact : (s.ndevs.getD i default).sendq.max = 0
    · exfalso
      have hse : (s.ndevs.getD i default).sendq.reqs = [] := by
        have := hslot.sq.count_le
        rw [hact] at this
        exact List.length_eq_zero.1 (Nat.le_zero.1 this)
      have hre : (s.ndevs.getD i default).recvq.reqs = [] := by
        have := hslot.rq.count_le
        rw [hslot.sync hact] at this
        exact List.length_eq_zero.1 (Nat.le_zero.1 this)
      apply hm.1
      cases ty
      · exact hse
      · exact hse
      · exact hre
    · rw [reply_pos_eq s i ty id result hact hm]
      rcases hq : (queueOf (s.ndevs.getD i default) ty).reqs with _ | ⟨x, rest⟩
      · exact absurd hq hm.1
      obtain ⟨ha1, _⟩ := advance_spec s.spares hq
      refine ⟨rfl, ?_, ?_⟩
      · show (queueOf ((s.ndevs.set i _).getD i default) ty).reqs = _
        rw [getD_set_self _ default hil, queueOf_setQueueOf, ha1]
        rfl
      · show (queueOf ((s.ndevs.set i _).getD i default) ty).head = _
        rw [getD_set_self _ default hil, queueOf_setQueueOf, ha1]
  · intro hnm
    rw [reply_drop_eq s i ty id result (Or.inr hnm)]
    exact ⟨rfl, rfl⟩

/-- C5 witness: on the reachable state with one pending configure request
(sequence id 2), a configure reply with id 2 is forwarded and removes the
head, evaluated by applying the theorem at that state. -/
theorem c5_reply_matching_witness :
    Reachable confState ∧ 0 < confState.ndevMax ∧
    ((replyMatches (confState.ndevs.getD 0 default) ReqType.conf 2 →
      ((ndev_reply confState 0 ReqType.conf 2 0).2 = [callbackOf ReqType.conf 0] ∧
       (queueOf ((ndev_reply confState 0 ReqType.conf 2 0).1.ndevs.getD 0 default)
         ReqType.conf).reqs
         = (queueOf (confState.ndevs.getD 0 default) ReqType.conf).reqs.tail ∧
       (queueOf ((ndev_reply confState 0 ReqType.conf 2 0).1.ndevs.getD 0 default)
         ReqType.conf).head
         = ((queueOf (confState.ndevs.getD 0 default) ReqType.conf).head + 1) % U32)) ∧
    (¬ replyMatches (confState.ndevs.getD 0 default) ReqType.conf 2 →
      ((ndev_reply confState 0 ReqType.conf 2 0).1 = confState ∧
       (ndev_reply confState 0 ReqType.conf 2 0).2 = []))) :=
  ⟨reach_confState, by decide,
   c5_reply_matching confState reach_confState 0 (by decide) ReqType.conf 2 0⟩

/-- C4 witness: the amended reset behaviour on a queue holding two
requests. -/
theorem c4_reset_spec_witness :
    c4_two_queue.head < U32 ∧
    ((ndev_queue_reset c4_two_queue 8).1.max = 0 ∧
     (ndev_queue_reset c4_two_queue 8).1.count = 0 ∧
     (ndev_queue_reset c4_two_queue 8).1.head
       = (c4_two_queue.head + c4_two_queue.count) % U32 ∧
     (c4_two_queue.reqs ≠ [] →
       c4_two_queue.head + 1 ≤ c4_two_queue.head + c4_two_queue.count)) :=
  ⟨by decide, c4_reset_spec c4_two_queue 8 (by decide)⟩

end NDCC
